import Mathlib

/-!
# Verification of the Ether memory-as-a-service core

Shallow embedding of the Ether repository's three core components, translated
from the C sources:

* the block allocator with hidden per-block headers (`src/src/allocator.c`,
  functions `ether_alloc`, `ether_free`, `ether_realloc`, `ether_write`,
  `ether_read`, `ether_size`, `ether_reset_stats`);
* the etherd server's handle table and request handlers (`store_handle`,
  `lookup_handle`, `remove_handle`, `handle_alloc`, `handle_free`,
  `handle_write`, `handle_read`, `handle_client` dispatch), found in the same
  translation unit;
* the wire-protocol codec (`ether_msg_serialize_header`,
  `ether_msg_deserialize_header`, `ether_msg_validate`).

Modelling conventions:

* Machine integers (`size_t`, `uint64_t`) are `Nat` with arithmetic reduced
  modulo `2^64` exactly where the C performs wrapping arithmetic
  (statistics counters, the handle counter).  `x >> n` on unsigned values is
  `x / 2^n`, `x & 0xFF` is `x % 256`, `x << n` is `x * 2^n`, and `|` of
  disjoint shifted bytes is `+`.
* The heap is a finite association list from abstract addresses (`Nat`) to
  blocks; `malloc` success is an explicit oracle `Bool` argument, and the
  fresh address is the state's `nextPtr` counter.  Freed blocks stay in the
  map carrying the `BLOCK_FREED` tag, mirroring the tag the C code writes
  into the header just before returning storage to the system; the
  `releasedCount` field counts how many times the storage of a block was
  handed back to the system (`free(header)` calls).
* Byte buffers are `List Nat` of values `< 256`; a C `NULL` pointer is
  `Option.none`.
-/

namespace Ether

/-- `2^64`, the modulus of `size_t` / `uint64_t` arithmetic. -/
def U64 : Nat := 2 ^ 64

/-- Wrapping 64-bit addition, as performed on `size_t` statistics counters. -/
def addW (a b : Nat) : Nat := (a + b) % U64

/-- Wrapping 64-bit subtraction (`a - b` on `size_t`), for `a < 2^64`. -/
def subW (a b : Nat) : Nat := (a + U64 - b % U64) % U64

-- ===========================================================================
-- Wire protocol (ether/protocol.h, unnamed/part_004)
-- ===========================================================================

/-- `ETHER_MAGIC` protocol sentinel. -/
def ETHER_MAGIC : Nat := 0xE7E7E7E7

/-- `ETHER_PROTOCOL_VER`. -/
def ETHER_PROTOCOL_VER : Nat := 1

/-- `ETHER_MAX_PAYLOAD` (16 MiB). -/
def ETHER_MAX_PAYLOAD : Nat := 16 * 1024 * 1024

/-- Command codes from `ether_cmd_t`. -/
def ETHER_CMD_PING : Nat := 0x01
def ETHER_CMD_PONG : Nat := 0x02
def ETHER_CMD_ALLOC : Nat := 0x10
def ETHER_CMD_FREE : Nat := 0x11
def ETHER_CMD_REALLOC : Nat := 0x12
def ETHER_CMD_WRITE : Nat := 0x20
def ETHER_CMD_READ : Nat := 0x21
def ETHER_CMD_OK : Nat := 0xF0
def ETHER_CMD_ERROR : Nat := 0xFF

/-- `ether_msg_header_t`: the 24-byte fixed message header.  Field widths in
the C struct: `magic : uint32`, `version : uint8`, `command : uint8`,
`flags : uint16`, `handle : uint64`, `size : uint32`, `reserved : uint32`. -/
@[ext]
structure MsgHeader where
  magic : Nat
  version : Nat
  command : Nat
  flags : Nat
  handle : Nat
  size : Nat
  reserved : Nat
deriving DecidableEq, Repr

/-- A header is well formed when every field fits its C integer type. -/
def MsgHeader.Wf (h : MsgHeader) : Prop :=
  h.magic < 2 ^ 32 ∧ h.version < 2 ^ 8 ∧ h.command < 2 ^ 8 ∧
  h.flags < 2 ^ 16 ∧ h.handle < 2 ^ 64 ∧ h.size < 2 ^ 32 ∧ h.reserved < 2 ^ 32

instance (h : MsgHeader) : Decidable h.Wf := by
  unfold MsgHeader.Wf; infer_instance

/-- `ether_msg_serialize_header`: writes the 24 wire bytes in network byte
order.  `htonl` stores a `uint32` big-endian; the handle is emitted with the
manual shift-and-mask loop of the source (`(handle >> 56) & 0xFF` is
`handle / 2^56 % 256`, and so on). -/
def ether_msg_serialize_header (h : MsgHeader) : List Nat :=
  [ h.magic / 2 ^ 24 % 256, h.magic / 2 ^ 16 % 256,
    h.magic / 2 ^ 8 % 256, h.magic % 256,
    h.version % 256,
    h.command % 256,
    h.flags / 2 ^ 8 % 256, h.flags % 256,
    h.handle / 2 ^ 56 % 256, h.handle / 2 ^ 48 % 256,
    h.handle / 2 ^ 40 % 256, h.handle / 2 ^ 32 % 256,
    h.handle / 2 ^ 24 % 256, h.handle / 2 ^ 16 % 256,
    h.handle / 2 ^ 8 % 256, h.handle % 256,
    h.size / 2 ^ 24 % 256, h.size / 2 ^ 16 % 256,
    h.size / 2 ^ 8 % 256, h.size % 256,
    h.reserved / 2 ^ 24 % 256, h.reserved / 2 ^ 16 % 256,
    h.reserved / 2 ^ 8 % 256, h.reserved % 256 ]

/-- `ether_msg_deserialize_header`: reads the 24 wire bytes back.  `ntohl`
recombines four big-endian bytes; the handle is rebuilt with the source's
shift-and-or chain (`(b << k) | ...` of disjoint bytes is `b * 2^k + ...`).
A buffer shorter than 24 bytes is caller undefined behaviour in the C;
the fallback returns the all-zero header. -/
def ether_msg_deserialize_header : List Nat → MsgHeader
  | b0 :: b1 :: b2 :: b3 :: b4 :: b5 :: b6 :: b7 ::
    b8 :: b9 :: b10 :: b11 :: b12 :: b13 :: b14 :: b15 ::
    b16 :: b17 :: b18 :: b19 :: b20 :: b21 :: b22 :: b23 :: _ =>
    { magic := b0 * 2 ^ 24 + b1 * 2 ^ 16 + b2 * 2 ^ 8 + b3
      version := b4
      command := b5
      flags := b6 * 2 ^ 8 + b7
      handle := b8 * 2 ^ 56 + b9 * 2 ^ 48 + b10 * 2 ^ 40 + b11 * 2 ^ 32 +
                b12 * 2 ^ 24 + b13 * 2 ^ 16 + b14 * 2 ^ 8 + b15
      size := b16 * 2 ^ 24 + b17 * 2 ^ 16 + b18 * 2 ^ 8 + b19
      reserved := b20 * 2 ^ 24 + b21 * 2 ^ 16 + b22 * 2 ^ 8 + b23 }
  | _ => { magic := 0, version := 0, command := 0, flags := 0,
           handle := 0, size := 0, reserved := 0 }

/-- `ether_msg_validate`: magic, version and payload-size bound check. -/
def ether_msg_validate (h : MsgHeader) : Bool :=
  if h.magic = ETHER_MAGIC ∧ h.version = ETHER_PROTOCOL_VER ∧
     h.size ≤ ETHER_MAX_PAYLOAD then true else false

-- ===========================================================================
-- Block allocator (src/src/allocator.c)
-- ===========================================================================

/-- `BLOCK_MAGIC`: tag of an allocated block. -/
def BLOCK_MAGIC : Nat := 0xF9A9582B

/-- `BLOCK_FREED`: tag of a freed block. -/
def BLOCK_FREED : Nat := 0x8FD76019

/-- `FLAG_ALLOCATED`. -/
def FLAG_ALLOCATED : Nat := 0x01

/-- `ether_error_t` return codes. -/
inductive EtherErr where
  | ok | nomem | invalid | corrupt | overflow | network | timeout | notfound
deriving DecidableEq, Repr

/-- `block_header_t`: the hidden header preceding each allocation. -/
structure BlockHeader where
  magic : Nat
  flags : Nat
  size : Nat
  capacity : Nat
deriving DecidableEq, Repr

/-- One allocator-managed block: its hidden header, the user data area
(`capacity` bytes as allocated), and a bookkeeping count of how many times
`free(header)` returned the underlying storage to the system. -/
structure Block where
  header : BlockHeader
  data : List Nat
  releasedCount : Nat
deriving DecidableEq, Repr

/-- `ether_stats_t`: the aggregate statistics singleton (`g_stats`). -/
structure Stats where
  total_allocated : Nat
  total_freed : Nat
  current_usage : Nat
  peak_usage : Nat
  num_allocs : Nat
  num_frees : Nat
deriving DecidableEq, Repr

/-- The all-zero statistics (`static ether_stats_t g_stats = {0}`). -/
def Stats.zero : Stats := ⟨0, 0, 0, 0, 0, 0⟩

/-- The allocator's global state: the heap (association list from abstract
addresses to blocks, most recent allocation first), the next fresh address
the modelled `malloc` hands out, and the statistics singleton. -/
structure AllocState where
  blocks : List (Nat × Block)
  nextPtr : Nat
  stats : Stats
deriving DecidableEq, Repr

/-- The initial allocator state: empty heap, zeroed statistics. -/
def initAlloc : AllocState := ⟨[], 0, Stats.zero⟩

/-- `get_header(ptr)` / pointer resolution: find the block a user pointer
refers to (first match in the heap list). -/
def lookupBlock : List (Nat × Block) → Nat → Option Block
  | [], _ => none
  | (q, b) :: rest, p => if q = p then some b else lookupBlock rest p

/-- Apply `f` to the block the pointer `p` resolves to (first match),
modelling a write through the header or data pointer. -/
def updateBlock : List (Nat × Block) → Nat → (Block → Block) → List (Nat × Block)
  | [], _, _ => []
  | (q, b) :: rest, p, f =>
    if q = p then (q, f b) :: rest else (q, b) :: updateBlock rest p f

/-- `is_valid_block`: magic equals `BLOCK_MAGIC` and the allocated flag is
set.  (The null check of the C is the `Option` layer of the callers.) -/
def is_valid_block (b : Block) : Bool :=
  if b.header.magic = BLOCK_MAGIC ∧ b.header.flags &&& FLAG_ALLOCATED ≠ 0
  then true else false

/-- The transformation `ether_free` applies to the block being freed:
wipe `size` bytes to zero (`memset`), mark the header `BLOCK_FREED` with
cleared flags, and count the `free(header)` hand-back to the system. -/
def freeMark (size : Nat) (bb : Block) : Block :=
  { header := { bb.header with magic := BLOCK_FREED, flags := 0 }
    data := List.replicate size 0 ++ bb.data.drop size
    releasedCount := bb.releasedCount + 1 }

/-- The transformation `ether_realloc` applies on the reuse-in-place path:
update the stored size and zero any newly exposed bytes when growing. -/
def resizeInPlace (old_size new_size : Nat) (bb : Block) : Block :=
  { bb with
    header := { bb.header with size := new_size }
    data :=
      if old_size < new_size then
        bb.data.take old_size ++ List.replicate (new_size - old_size) 0 ++
          bb.data.drop new_size
      else bb.data }

/-- `memcpy(dst, src, copy_size)` into the start of a block's data area. -/
def copyInto (src : List Nat) (copy_size : Nat) (bb : Block) : Block :=
  { bb with data := src.take copy_size ++ bb.data.drop copy_size }

/-- `ether_alloc(size)`.  `sysOk` is the `malloc` success oracle; the fresh
address is `s.nextPtr`.  On success the header is stamped LIVE with
`size = capacity = size`, the user area is zeroed, and the statistics are
updated with wrapping `size_t` arithmetic, bumping the peak when exceeded. -/
def ether_alloc (s : AllocState) (size : Nat) (sysOk : Bool) :
    AllocState × Option Nat :=
  if size = 0 then (s, none)
  else if ¬sysOk then (s, none)
  else
    let p := s.nextPtr
    let b : Block :=
      ⟨⟨BLOCK_MAGIC, FLAG_ALLOCATED, size, size⟩, List.replicate size 0, 0⟩
    let cu := addW s.stats.current_usage size
    let st : Stats :=
      { total_allocated := addW s.stats.total_allocated size
        total_freed := s.stats.total_freed
        current_usage := cu
        peak_usage := if s.stats.peak_usage < cu then cu else s.stats.peak_usage
        num_allocs := addW s.stats.num_allocs 1
        num_frees := s.stats.num_frees }
    ({ blocks := (p, b) :: s.blocks, nextPtr := p + 1, stats := st }, some p)

/-- Error reports `ether_free` prints to stderr. -/
inductive FreeErr where
  | invalidFree | doubleFree
deriving DecidableEq, Repr

/-- `ether_free(ptr)`.  `free(NULL)` is a silent no-op.  A block failing
`is_valid_block` is reported as an invalid free and left untouched (this is
also the path a double free takes, since a freed block's magic is
`BLOCK_FREED`; the explicit `BLOCK_FREED` comparison that follows in the
source is unreachable and kept only for fidelity).  Otherwise the user data
is wiped to zero, the header is marked freed, the statistics are updated
with wrapping `size_t` arithmetic, and the storage is returned to the
system (`releasedCount` increments). -/
def ether_free (s : AllocState) (ptr : Option Nat) :
    AllocState × Option FreeErr :=
  match ptr with
  | none => (s, none)
  | some p =>
    match lookupBlock s.blocks p with
    | none => (s, some .invalidFree)
    | some b =>
      if ¬is_valid_block b then (s, some .invalidFree)
      else if b.header.magic = BLOCK_FREED then (s, some .doubleFree)
      else
        let size := b.header.size
        let st : Stats :=
          { s.stats with
            total_freed := addW s.stats.total_freed size
            current_usage := subW s.stats.current_usage size
            num_frees := addW s.stats.num_frees 1 }
        ({ s with
           blocks := updateBlock s.blocks p (freeMark size)
           stats := st }, none)

/-- `ether_realloc(ptr, new_size)`.  `NULL` behaves as `ether_alloc`; size 0
behaves as `ether_free` and yields no pointer; a fit within capacity reuses
the block in place, zeroing newly exposed bytes when growing; otherwise a
new block is allocated, `min(old_size,new_size)` bytes are copied, and the
old block is freed.  An allocation failure leaves everything unchanged. -/
def ether_realloc (s : AllocState) (ptr : Option Nat) (new_size : Nat)
    (sysOk : Bool) : AllocState × Option Nat :=
  match ptr with
  | none => ether_alloc s new_size sysOk
  | some p =>
    if new_size = 0 then ((ether_free s (some p)).1, none)
    else
      match lookupBlock s.blocks p with
      | none => (s, none)
      | some b =>
        if ¬is_valid_block b then (s, none)
        else
          let old_size := b.header.size
          if new_size ≤ b.header.capacity then
            ({ s with
               blocks := updateBlock s.blocks p (resizeInPlace old_size new_size) },
              some p)
          else
            match ether_alloc s new_size sysOk with
            | (s1, none) => (s1, none)
            | (s1, some np) =>
              let copy_size := if old_size < new_size then old_size else new_size
              let s2 : AllocState :=
                { s1 with
                  blocks := updateBlock s1.blocks np (copyInto b.data copy_size) }
              ((ether_free s2 (some p)).1, some np)

/-- `ether_write(ptr, data, len)`: a null pointer or null data is Invalid,
a block failing validation is Corrupt, `len` beyond the stored size is
Overflow; otherwise `len` bytes are copied to the start of the block. -/
def ether_write (s : AllocState) (ptr : Option Nat) (data : Option (List Nat))
    (len : Nat) : AllocState × EtherErr :=
  match ptr, data with
  | none, _ => (s, .invalid)
  | _, none => (s, .invalid)
  | some p, some d =>
    match lookupBlock s.blocks p with
    | none => (s, .corrupt)
    | some b =>
      if ¬is_valid_block b then (s, .corrupt)
      else if b.header.size < len then (s, .overflow)
      else
        ({ s with blocks := updateBlock s.blocks p (copyInto d len) }, .ok)

/-- `ether_read(ptr, buffer, len)`: symmetric to `ether_write`; on success
the first `len` bytes of the block are returned (the contents `memcpy`
places into the caller's buffer).  `bufPresent` models a non-null
destination buffer. -/
def ether_read (s : AllocState) (ptr : Option Nat) (bufPresent : Bool)
    (len : Nat) : EtherErr × Option (List Nat) :=
  match ptr with
  | none => (.invalid, none)
  | some p =>
    if ¬bufPresent then (.invalid, none)
    else
      match lookupBlock s.blocks p with
      | none => (.corrupt, none)
      | some b =>
        if ¬is_valid_block b then (.corrupt, none)
        else if b.header.size < len then (.overflow, none)
        else (.ok, some (b.data.take len))

/-- `ether_size(ptr)`: the stored size, or 0 for null/invalid pointers. -/
def ether_size (s : AllocState) (ptr : Option Nat) : Nat :=
  match ptr with
  | none => 0
  | some p =>
    match lookupBlock s.blocks p with
    | none => 0
    | some b => if ¬is_valid_block b then 0 else b.header.size

/-- `ether_reset_stats`: zeroes every counter, touching no block. -/
def ether_reset_stats (s : AllocState) : AllocState :=
  { s with stats := Stats.zero }

-- ===========================================================================
-- Allocator operation sequences (for the statistics invariants)
-- ===========================================================================

/-- One public allocator call, with its `malloc` oracle where applicable. -/
inductive AllocOp where
  | alloc (size : Nat) (sysOk : Bool)
  | free (ptr : Option Nat)
  | realloc (ptr : Option Nat) (new_size : Nat) (sysOk : Bool)
  | reset
deriving DecidableEq, Repr

/-- Apply one allocator call to the state. -/
def stepAlloc (s : AllocState) : AllocOp → AllocState
  | .alloc size ok => (ether_alloc s size ok).1
  | .free p => (ether_free s p).1
  | .realloc p n ok => (ether_realloc s p n ok).1
  | .reset => ether_reset_stats s

/-- Run a sequence of allocator calls from a given state. -/
def runFrom (s : AllocState) (ops : List AllocOp) : AllocState :=
  ops.foldl stepAlloc s

/-- Run a sequence of allocator calls from the initial zeroed state. -/
def runAllocOps (ops : List AllocOp) : AllocState :=
  runFrom initAlloc ops

/-- Bytes an operation can allocate at most (used to bound the traces on
which the 64-bit statistics counters cannot wrap). -/
def opBudget : AllocOp → Nat
  | .alloc size _ => size
  | .free _ => 0
  | .realloc _ n _ => n
  | .reset => 0

/-- Total allocation budget of a trace. -/
def budget (ops : List AllocOp) : Nat := (ops.map opBudget).sum

/-- Capacity contribution of a block to `current_usage`: live blocks carry
their full capacity (the size they were allocated with). -/
def capContrib (b : Block) : Nat :=
  if is_valid_block b then b.header.capacity else 0

/-- Slack contribution of a freed block: the gap between its capacity and
the size recorded when it was freed, which `ether_free` did not subtract. -/
def slackContrib (b : Block) : Nat :=
  if is_valid_block b then 0 else b.header.capacity - b.header.size

/-- Sum of a block measure over the heap. -/
def sumBlocks (g : Block → Nat) (bs : List (Nat × Block)) : Nat :=
  (bs.map fun x => g x.2).sum

/-- All six statistics counters are within `size_t` range. -/
def statsLt (s : AllocState) : Prop :=
  s.stats.total_allocated < U64 ∧ s.stats.total_freed < U64 ∧
  s.stats.current_usage < U64 ∧ s.stats.peak_usage < U64 ∧
  s.stats.num_allocs < U64 ∧ s.stats.num_frees < U64

/-- The wrapping-arithmetic ledger identity:
`total_allocated ≡ total_freed + current_usage (mod 2^64)`. -/
def ledgerMod (s : AllocState) : Prop :=
  s.stats.total_allocated % U64 = (s.stats.total_freed + s.stats.current_usage) % U64

/-- The exact (non-wrapping) statistics invariant that holds while no
counter has wrapped and `reset_statistics` has not interfered:
`current_usage` equals the live capacities plus the slack leaked by in-place
shrinks, the ledger balances exactly, the peak dominates the current usage,
and every block's size is bounded by its capacity. -/
def StatsInv (s : AllocState) : Prop :=
  s.stats.current_usage =
    sumBlocks capContrib s.blocks + sumBlocks slackContrib s.blocks ∧
  s.stats.total_allocated = s.stats.total_freed + s.stats.current_usage ∧
  s.stats.current_usage ≤ s.stats.peak_usage ∧
  s.stats.peak_usage ≤ s.stats.total_allocated ∧
  ∀ pb ∈ s.blocks, (pb : Nat × Block).2.header.size ≤ pb.2.header.capacity

-- ===========================================================================
-- Server handle table (etherd, src/src/allocator.c server half)
-- ===========================================================================

/-- `handle_entry_t`: one slot of the fixed 1024-entry handle table. -/
structure HandleEntry where
  handle : Nat
  ptr : Option Nat
  size : Nat
  in_use : Bool
deriving DecidableEq, Repr

/-- The initial table: `static handle_entry_t g_handles[1024]`, all zero. -/
def initHandles : List HandleEntry :=
  List.replicate 1024 ⟨0, none, 0, false⟩

/-- `store_handle(ptr, size)`: scan for the first free slot, assign it the
next handle (the 64-bit counter post-increments, wrapping mod `2^64`), and
return the assigned handle; return 0 when no slot is free.  The result is
`(new table, new counter, returned handle)`. -/
def store_handle : List HandleEntry → Nat → Nat → Nat →
    List HandleEntry × Nat × Nat
  | [], next, _, _ => ([], next, 0)
  | e :: rest, next, p, sz =>
    if e.in_use then
      let (r, nx, h) := store_handle rest next p sz
      (e :: r, nx, h)
    else
      (⟨next, some p, sz, true⟩ :: rest, (next + 1) % U64, next)

/-- `lookup_handle(handle, &size)`: first slot in use with this handle; the
C returns its possibly-NULL pointer, which callers treat as not-found. -/
def lookup_handle : List HandleEntry → Nat → Option (Nat × Nat)
  | [], _ => none
  | e :: rest, h =>
    if e.in_use ∧ e.handle = h then
      match e.ptr with
      | some p => some (p, e.size)
      | none => none
    else lookup_handle rest h

/-- `remove_handle(handle)`: clear the first matching in-use slot; the
handle field itself is left behind, only `in_use`/`ptr` are reset. -/
def remove_handle : List HandleEntry → Nat → List HandleEntry × Bool
  | [], _ => ([], false)
  | e :: rest, h =>
    if e.in_use ∧ e.handle = h then
      ({ e with in_use := false, ptr := none } :: rest, true)
    else
      let (r, b) := remove_handle rest h
      (e :: r, b)

/-- The etherd process state: the allocator singleton, the handle table and
the monotone handle counter (`g_next_handle`, initially 1). -/
structure ServerState where
  alloc : AllocState
  table : List HandleEntry
  nextHandle : Nat
deriving DecidableEq, Repr

/-- Fresh server state. -/
def initServer : ServerState := ⟨initAlloc, initHandles, 1⟩

/-- A framed response as `send_response` emits it: command byte, handle,
payload bytes.  (`send_response` builds it via `ether_msg_create`; transport
and `calloc` failures of `send_response` itself are outside this model.) -/
structure Response where
  cmd : Nat
  handle : Nat
  payload : List Nat
deriving DecidableEq, Repr

/-- `handle_ping`: respond PONG. -/
def handle_ping (st : ServerState) : ServerState × Response :=
  (st, ⟨ETHER_CMD_PONG, 0, []⟩)

/-- `handle_alloc`: allocate `header.size` bytes, store a handle; on
allocation failure or on `store_handle` returning 0, respond ERROR with
handle 0 (releasing the just-allocated region in the latter case). -/
def handle_alloc (st : ServerState) (hdr : MsgHeader) (sysOk : Bool) :
    ServerState × Response :=
  match ether_alloc st.alloc hdr.size sysOk with
  | (a1, none) => ({ st with alloc := a1 }, ⟨ETHER_CMD_ERROR, 0, []⟩)
  | (a1, some p) =>
    let (tbl, nh, h) := store_handle st.table st.nextHandle p hdr.size
    if h = 0 then
      ({ alloc := (ether_free a1 (some p)).1, table := tbl, nextHandle := nh },
        ⟨ETHER_CMD_ERROR, 0, []⟩)
    else
      ({ alloc := a1, table := tbl, nextHandle := nh }, ⟨ETHER_CMD_OK, h, []⟩)

/-- `handle_free`: look the handle up (absent → ERROR), release the region,
remove the table entry, respond OK. -/
def handle_free (st : ServerState) (hdr : MsgHeader) :
    ServerState × Response :=
  match lookup_handle st.table hdr.handle with
  | none => (st, ⟨ETHER_CMD_ERROR, hdr.handle, []⟩)
  | some (p, _) =>
    let a1 := (ether_free st.alloc (some p)).1
    let tbl := (remove_handle st.table hdr.handle).1
    ({ st with alloc := a1, table := tbl }, ⟨ETHER_CMD_OK, hdr.handle, []⟩)

/-- `handle_write`: look the handle up (absent → ERROR); a length beyond
the stored block size is a hard ERROR with no write attempted; otherwise
delegate to `ether_write` and map its failure to ERROR. -/
def handle_write (st : ServerState) (hdr : MsgHeader)
    (payload : Option (List Nat)) : ServerState × Response :=
  match lookup_handle st.table hdr.handle with
  | none => (st, ⟨ETHER_CMD_ERROR, hdr.handle, []⟩)
  | some (p, block_size) =>
    if block_size < hdr.size then (st, ⟨ETHER_CMD_ERROR, hdr.handle, []⟩)
    else
      match ether_write st.alloc (some p) payload hdr.size with
      | (a1, .ok) => ({ st with alloc := a1 }, ⟨ETHER_CMD_OK, hdr.handle, []⟩)
      | (a1, _) => ({ st with alloc := a1 }, ⟨ETHER_CMD_ERROR, hdr.handle, []⟩)

/-- `handle_read`: look the handle up (absent → ERROR); cap the requested
length to the stored block size; `scratchOk` models the success of the
scratch-buffer `malloc`; read and respond OK with the bytes as payload. -/
def handle_read (st : ServerState) (hdr : MsgHeader) (scratchOk : Bool) :
    ServerState × Response :=
  match lookup_handle st.table hdr.handle with
  | none => (st, ⟨ETHER_CMD_ERROR, hdr.handle, []⟩)
  | some (p, block_size) =>
    let len := if block_size < hdr.size then block_size else hdr.size
    if ¬scratchOk then (st, ⟨ETHER_CMD_ERROR, hdr.handle, []⟩)
    else
      match ether_read st.alloc (some p) true len with
      | (.ok, some bytes) => (st, ⟨ETHER_CMD_OK, hdr.handle, bytes⟩)
      | _ => (st, ⟨ETHER_CMD_ERROR, hdr.handle, []⟩)

/-- One iteration of `handle_client`'s loop on a received header and the
payload bytes that followed it on the wire: validate (silently dropping
invalid messages — no response), read the payload only when `size > 0`
(otherwise the handler sees a NULL payload pointer), and dispatch on the
command byte.  `allocOk`/`scratchOk` are the `malloc` oracles of
`handle_alloc` and `handle_read`. -/
def serverStep (st : ServerState) (hdr : MsgHeader) (payloadBytes : List Nat)
    (allocOk scratchOk : Bool) : ServerState × Option Response :=
  if ¬ether_msg_validate hdr then (st, none)
  else
    let payload : Option (List Nat) :=
      if 0 < hdr.size then some payloadBytes else none
    if hdr.command = ETHER_CMD_PING then
      let (st', r) := handle_ping st
      (st', some r)
    else if hdr.command = ETHER_CMD_ALLOC then
      let (st', r) := handle_alloc st hdr allocOk
      (st', some r)
    else if hdr.command = ETHER_CMD_FREE then
      let (st', r) := handle_free st hdr
      (st', some r)
    else if hdr.command = ETHER_CMD_WRITE then
      let (st', r) := handle_write st hdr payload
      (st', some r)
    else if hdr.command = ETHER_CMD_READ then
      let (st', r) := handle_read st hdr scratchOk
      (st', some r)
    else
      (st, some ⟨ETHER_CMD_ERROR, 0, []⟩)

-- ===========================================================================
-- Handle-table trace semantics (for the handle-uniqueness claims)
-- ===========================================================================

/-- A handle-table operation, as issued by the request handlers. -/
inductive TOp where
  | store (p sz : Nat)
  | remove (h : Nat)
deriving DecidableEq, Repr

/-- Handle-table state together with the history of handles `store_handle`
issued (the return values of its successful calls, oldest first). -/
structure TState where
  entries : List HandleEntry
  next : Nat
  issued : List Nat
deriving DecidableEq, Repr

/-- Initial table state: empty 1024-slot table, counter 1, nothing issued. -/
def initTState : TState := ⟨initHandles, 1, []⟩

/-- Apply one table operation; a successful store appends its returned
handle to the issue history (an exhausted store returns 0 and the table is
unchanged, so nothing was issued). -/
def stepTable (t : TState) : TOp → TState
  | .store p sz =>
    let (es, nx, h) := store_handle t.entries t.next p sz
    if h = 0 ∧ es = t.entries then { entries := es, next := nx, issued := t.issued }
    else { entries := es, next := nx, issued := t.issued ++ [h] }
  | .remove h => { t with entries := (remove_handle t.entries h).1 }

/-- Run table operations from the initial state. -/
def tableRun (ops : List TOp) : TState :=
  ops.foldl stepTable initTState

/-- Number of store operations in a trace. -/
def storeCount (ops : List TOp) : Nat :=
  (ops.filter fun op => match op with | .store _ _ => true | .remove _ => false).length

/-- One store-then-remove round trip on the table, iterated `k` times from
the initial state; each iteration stores into slot 0 and removes the handle
it was issued, so the table returns to all-free while the 64-bit handle
counter advances by one. -/
def spin : Nat → TState
  | 0 => initTState
  | k + 1 =>
    let t := spin k
    let (es, nx, h) := store_handle t.entries t.next 0 1
    { entries := (remove_handle es h).1, next := nx, issued := t.issued ++ [h] }

end Ether

-- ===========================================================================
-- Theorems
-- ===========================================================================

namespace Ether

theorem recompose16 (x : Nat) (h : x < 2 ^ 16) :
    x / 2 ^ 8 % 256 * 2 ^ 8 + x % 256 = x := by
  omega

theorem recompose32 (x : Nat) (h : x < 2 ^ 32) :
    x / 2 ^ 24 % 256 * 2 ^ 24 + x / 2 ^ 16 % 256 * 2 ^ 16 +
      x / 2 ^ 8 % 256 * 2 ^ 8 + x % 256 = x := by
  omega

theorem recompose64 (x : Nat) (h : x < 2 ^ 64) :
    x / 2 ^ 56 % 256 * 2 ^ 56 + x / 2 ^ 48 % 256 * 2 ^ 48 +
      x / 2 ^ 40 % 256 * 2 ^ 40 + x / 2 ^ 32 % 256 * 2 ^ 32 +
      x / 2 ^ 24 % 256 * 2 ^ 24 + x / 2 ^ 16 % 256 * 2 ^ 16 +
      x / 2 ^ 8 % 256 * 2 ^ 8 + x % 256 = x := by
  omega

/-- **C2.** For every message header with valid field values (each field
within its C integer type's range), deserializing the 24-byte buffer produced
by serializing the header yields a header equal to it in all seven fields. -/
theorem serialize_deserialize_roundtrip (h : MsgHeader) (hwf : h.Wf) :
    ether_msg_deserialize_header (ether_msg_serialize_header h) = h := by
  obtain ⟨hm, hv, hc, hf, hh, hs, hr⟩ := hwf
  simp only [ether_msg_serialize_header, ether_msg_deserialize_header]
  refine MsgHeader.ext ?_ ?_ ?_ ?_ ?_ ?_ ?_ <;> simp only
  · exact recompose32 h.magic hm
  · omega
  · omega
  · exact recompose16 h.flags hf
  · exact recompose64 h.handle hh
  · exact recompose32 h.size hs
  · exact recompose32 h.reserved hr

/-- Witness for C2: Scenario C of the spec — magic = sentinel, version 1,
command ALLOC, handle `0xDEADBEEFCAFEBABE`, size 12345 round-trips. -/
theorem serialize_deserialize_roundtrip_witness :
    ether_msg_deserialize_header (ether_msg_serialize_header
      ⟨ETHER_MAGIC, ETHER_PROTOCOL_VER, ETHER_CMD_ALLOC, 0,
        0xDEADBEEFCAFEBABE, 12345, 0⟩) =
      ⟨ETHER_MAGIC, ETHER_PROTOCOL_VER, ETHER_CMD_ALLOC, 0,
        0xDEADBEEFCAFEBABE, 12345, 0⟩ :=
  serialize_deserialize_roundtrip _ (by decide)

-- ---------------------------------------------------------------------------
-- Heap helper lemmas
-- ---------------------------------------------------------------------------

theorem addW_eq {a b : Nat} (h : a + b < U64) : addW a b = a + b :=
  Nat.mod_eq_of_lt h

theorem addW_lt (a b : Nat) : addW a b < U64 :=
  Nat.mod_lt _ (by norm_num [U64])

theorem subW_lt (a b : Nat) : subW a b < U64 :=
  Nat.mod_lt _ (by norm_num [U64])

theorem subW_eq {a b : Nat} (hb : b ≤ a) (ha : a < U64) : subW a b = a - b := by
  unfold subW
  have hbW : b < U64 := lt_of_le_of_lt hb ha
  rw [Nat.mod_eq_of_lt hbW]
  have h1 : a + U64 - b = U64 + (a - b) := by omega
  rw [h1, Nat.add_mod_left]
  exact Nat.mod_eq_of_lt (by omega)

theorem is_valid_block_iff (b : Block) :
    is_valid_block b = true ↔
      b.header.magic = BLOCK_MAGIC ∧ b.header.flags &&& FLAG_ALLOCATED ≠ 0 := by
  unfold is_valid_block
  split <;> simp_all

theorem lookupBlock_updateBlock_self (bs : List (Nat × Block)) (p : Nat)
    (f : Block → Block) :
    lookupBlock (updateBlock bs p f) p = (lookupBlock bs p).map f := by
  induction bs with
  | nil => rfl
  | cons hd tl ih =>
    obtain ⟨q, b⟩ := hd
    by_cases hq : q = p
    · simp [updateBlock, lookupBlock, hq]
    · simp [updateBlock, lookupBlock, hq, ih]

theorem lookupBlock_updateBlock_ne (bs : List (Nat × Block)) {p q : Nat}
    (f : Block → Block) (h : q ≠ p) :
    lookupBlock (updateBlock bs p f) q = lookupBlock bs q := by
  induction bs with
  | nil => rfl
  | cons hd tl ih =>
    obtain ⟨r, b⟩ := hd
    by_cases hr : r = p
    · subst hr
      simp [updateBlock, lookupBlock, Ne.symm h]
    · simp only [updateBlock, if_neg hr, lookupBlock]
      by_cases hrq : r = q <;> simp [hrq, ih]

theorem lookupBlock_mem {bs : List (Nat × Block)} {p : Nat} {b : Block}
    (h : lookupBlock bs p = some b) : (p, b) ∈ bs := by
  induction bs with
  | nil => simp [lookupBlock] at h
  | cons hd tl ih =>
    obtain ⟨q, c⟩ := hd
    by_cases hq : q = p
    · subst hq
      simp [lookupBlock] at h
      simp [h]
    · simp only [lookupBlock, if_neg hq] at h
      exact List.mem_cons_of_mem _ (ih h)

theorem lookupBlock_cons (q : Nat) (c : Block) (tl : List (Nat × Block)) (p : Nat) :
    lookupBlock ((q, c) :: tl) p = if q = p then some c else lookupBlock tl p :=
  rfl

theorem updateBlock_cons (q : Nat) (c : Block) (tl : List (Nat × Block)) (p : Nat)
    (f : Block → Block) :
    updateBlock ((q, c) :: tl) p f =
      if q = p then (q, f c) :: tl else (q, c) :: updateBlock tl p f :=
  rfl

theorem sumBlocks_cons (g : Block → Nat) (x : Nat × Block) (tl : List (Nat × Block)) :
    sumBlocks g (x :: tl) = g x.2 + sumBlocks g tl := by
  simp [sumBlocks]

theorem sumBlocks_updateBlock (g : Block → Nat) {bs : List (Nat × Block)}
    {p : Nat} {b : Block} (f : Block → Block)
    (h : lookupBlock bs p = some b) :
    sumBlocks g (updateBlock bs p f) + g b = sumBlocks g bs + g (f b) := by
  induction bs with
  | nil => simp [lookupBlock] at h
  | cons hd tl ih =>
    obtain ⟨q, c⟩ := hd
    rw [lookupBlock_cons] at h
    rw [updateBlock_cons]
    by_cases hq : q = p
    · rw [if_pos hq] at h ⊢
      injection h with h
      subst h
      rw [sumBlocks_cons, sumBlocks_cons]
      ring
    · rw [if_neg hq] at h ⊢
      rw [sumBlocks_cons, sumBlocks_cons]
      have := ih h
      omega

theorem sumBlocks_lookup_le (g : Block → Nat) {bs : List (Nat × Block)}
    {p : Nat} {b : Block} (h : lookupBlock bs p = some b) :
    g b ≤ sumBlocks g bs := by
  induction bs with
  | nil => simp [lookupBlock] at h
  | cons hd tl ih =>
    obtain ⟨q, c⟩ := hd
    rw [lookupBlock_cons] at h
    rw [sumBlocks_cons]
    by_cases hq : q = p
    · rw [if_pos hq] at h
      injection h with h
      subst h
      show g c ≤ g c + sumBlocks g tl
      exact Nat.le_add_right _ _
    · rw [if_neg hq] at h
      have := ih h
      omega

theorem mem_updateBlock {bs : List (Nat × Block)} {p : Nat} {b : Block}
    {f : Block → Block} {q : Nat} {c : Block}
    (hlb : lookupBlock bs p = some b) (h : (q, c) ∈ updateBlock bs p f) :
    (q, c) ∈ bs ∨ c = f b := by
  induction bs with
  | nil => simp [updateBlock] at h
  | cons hd tl ih =>
    obtain ⟨r, x⟩ := hd
    rw [lookupBlock_cons] at hlb
    rw [updateBlock_cons] at h
    by_cases hr : r = p
    · rw [if_pos hr] at hlb h
      injection hlb with hlb
      rcases List.mem_cons.mp h with h1 | h1
      · have hc : c = f x := congrArg Prod.snd h1
        subst hlb
        exact Or.inr hc
      · exact Or.inl (List.mem_cons_of_mem _ h1)
    · rw [if_neg hr] at hlb h
      rcases List.mem_cons.mp h with h1 | h1
      · exact Or.inl (List.mem_cons.mpr (Or.inl h1))
      · rcases ih hlb h1 with h2 | hc
        · exact Or.inl (List.mem_cons_of_mem _ h2)
        · exact Or.inr hc

-- ---------------------------------------------------------------------------
-- Step-equation helpers for the allocator operations
-- ---------------------------------------------------------------------------

theorem is_valid_block_mk (fl sz cap : Nat) (d : List Nat) (rc : Nat)
    (hfl : fl &&& FLAG_ALLOCATED ≠ 0) :
    is_valid_block ⟨⟨BLOCK_MAGIC, fl, sz, cap⟩, d, rc⟩ = true :=
  (is_valid_block_iff _).mpr ⟨rfl, hfl⟩

theorem is_valid_block_of_freed {b : Block} (h : b.header.magic = BLOCK_FREED) :
    is_valid_block b = false := by
  cases hv : is_valid_block b with
  | false => rfl
  | true =>
    have := ((is_valid_block_iff b).mp hv).1
    rw [h] at this
    exact absurd this (by decide)

theorem is_valid_block_copyInto (src : List Nat) (c : Nat) (b : Block) :
    is_valid_block (copyInto src c b) = is_valid_block b :=
  rfl

theorem is_valid_block_resizeInPlace (o n : Nat) (b : Block) :
    is_valid_block (resizeInPlace o n b) = is_valid_block b :=
  rfl

theorem ether_alloc_true (s : AllocState) (sz : Nat) (h : sz ≠ 0) :
    ether_alloc s sz true =
      ({ blocks := (s.nextPtr, ⟨⟨BLOCK_MAGIC, FLAG_ALLOCATED, sz, sz⟩,
            List.replicate sz 0, 0⟩) :: s.blocks,
         nextPtr := s.nextPtr + 1,
         stats := { total_allocated := addW s.stats.total_allocated sz,
                    total_freed := s.stats.total_freed,
                    current_usage := addW s.stats.current_usage sz,
                    peak_usage :=
                      if s.stats.peak_usage < addW s.stats.current_usage sz
                      then addW s.stats.current_usage sz else s.stats.peak_usage,
                    num_allocs := addW s.stats.num_allocs 1,
                    num_frees := s.stats.num_frees } }, some s.nextPtr) := by
  simp [ether_alloc, h]

theorem ether_free_live (s : AllocState) (p : Nat) (b : Block)
    (hb : lookupBlock s.blocks p = some b)
    (hv : is_valid_block b = true) :
    ether_free s (some p) =
      ({ s with
         blocks := updateBlock s.blocks p (freeMark b.header.size)
         stats :=
           { s.stats with
             total_freed := addW s.stats.total_freed b.header.size
             current_usage := subW s.stats.current_usage b.header.size
             num_frees := addW s.stats.num_frees 1 } }, none) := by
  have hnf : ¬b.header.magic = BLOCK_FREED := by
    rw [((is_valid_block_iff b).mp hv).1]; decide
  simp [ether_free, hb, hv, hnf]

theorem ether_realloc_inplace (s : AllocState) (p : Nat) (b : Block) (n : Nat)
    (ok : Bool) (hb : lookupBlock s.blocks p = some b)
    (hv : is_valid_block b = true) (hn : n ≠ 0) (hcap : n ≤ b.header.capacity) :
    ether_realloc s (some p) n ok =
      ({ s with
         blocks := updateBlock s.blocks p (resizeInPlace b.header.size n) },
        some p) := by
  simp [ether_realloc, hb, hv, hn, hcap]

theorem ether_size_eq (s : AllocState) (p : Nat) (b : Block)
    (hb : lookupBlock s.blocks p = some b) (hv : is_valid_block b = true) :
    ether_size s (some p) = b.header.size := by
  simp [ether_size, hb, hv]

theorem ether_read_some (s : AllocState) (p : Nat) (b : Block) (len : Nat)
    (hb : lookupBlock s.blocks p = some b) (hv : is_valid_block b = true)
    (hlen : len ≤ b.header.size) :
    ether_read s (some p) true len = (.ok, some (b.data.take len)) := by
  have h := Nat.not_lt.mpr hlen
  simp [ether_read, hb, hv, h]

theorem ether_realloc_grow_false (s : AllocState) (p : Nat) (b : Block) (n : Nat)
    (hb : lookupBlock s.blocks p = some b) (hv : is_valid_block b = true)
    (hn : n ≠ 0) (hnle : ¬n ≤ b.header.capacity) :
    ether_realloc s (some p) n false = (s, none) := by
  simp [ether_realloc, hb, hv, hn, hnle, ether_alloc]

theorem ether_realloc_grow_true (s : AllocState) (p : Nat) (b : Block) (n : Nat)
    (hb : lookupBlock s.blocks p = some b) (hv : is_valid_block b = true)
    (hn : n ≠ 0) (hnle : ¬n ≤ b.header.capacity) :
    ether_realloc s (some p) n true =
      ((ether_free
        { blocks :=
            (s.nextPtr, copyInto b.data
              (if b.header.size < n then b.header.size else n)
              ⟨⟨BLOCK_MAGIC, FLAG_ALLOCATED, n, n⟩, List.replicate n 0, 0⟩)
              :: s.blocks
          nextPtr := s.nextPtr + 1
          stats := { total_allocated := addW s.stats.total_allocated n,
                     total_freed := s.stats.total_freed,
                     current_usage := addW s.stats.current_usage n,
                     peak_usage :=
                       if s.stats.peak_usage < addW s.stats.current_usage n
                       then addW s.stats.current_usage n else s.stats.peak_usage,
                     num_allocs := addW s.stats.num_allocs 1,
                     num_frees := s.stats.num_frees } } (some p)).1,
        some s.nextPtr) := by
  simp [ether_realloc, hb, hv, hn, hnle, ether_alloc_true s n hn,
    updateBlock_cons]

-- ---------------------------------------------------------------------------
-- C5: write/read round trip
-- ---------------------------------------------------------------------------

/-- **C5.** For every live region and every `len ≤ size_of(region)`,
writing `len` bytes of `d` and then reading `len` bytes back yields exactly
`d`: the write succeeds and the read returns `Ok` with the written bytes. -/
theorem write_read_roundtrip (s : AllocState) (p : Nat) (b : Block)
    (d : List Nat) (len : Nat)
    (hb : lookupBlock s.blocks p = some b)
    (hv : is_valid_block b = true)
    (hlen : len ≤ b.header.size)
    (hd : d.length = len) :
    (ether_write s (some p) (some d) len).2 = .ok ∧
    ether_read (ether_write s (some p) (some d) len).1 (some p) true len =
      (.ok, some d) := by
  have hnlt : ¬b.header.size < len := by omega
  have hwrite :
      ether_write s (some p) (some d) len =
        ({ s with blocks := updateBlock s.blocks p (copyInto d len) }, .ok) := by
    simp [ether_write, hb, hv, hnlt]
  refine ⟨by rw [hwrite], ?_⟩
  rw [hwrite]
  have hlook :
      lookupBlock (updateBlock s.blocks p (copyInto d len)) p =
        some (copyInto d len b) := by
    rw [lookupBlock_updateBlock_self, hb, Option.map_some']
  have hv' : is_valid_block (copyInto d len b) = true := by
    rw [is_valid_block_iff]
    exact (is_valid_block_iff b).mp hv
  have htake : (copyInto d len b).data.take len = d := by
    show (d.take len ++ b.data.drop len).take len = d
    have h1 : d.take len = d := by rw [← hd]; exact List.take_length d
    calc (d.take len ++ b.data.drop len).take len
        = (d ++ b.data.drop len).take d.length := by rw [h1, hd]
      _ = d := List.take_left d _
  rw [ether_read_some _ p _ len hlook hv' (by show len ≤ b.header.size; omega), htake]

/-- Witness for C5: writing `[7, 8, 9]` into a fresh 5-byte block and
reading 3 bytes back returns `[7, 8, 9]`. -/
theorem write_read_roundtrip_witness :
    (ether_write (ether_alloc initAlloc 5 true).1 (some 0) (some [7, 8, 9]) 3).2 = .ok ∧
    ether_read (ether_write (ether_alloc initAlloc 5 true).1 (some 0)
        (some [7, 8, 9]) 3).1 (some 0) true 3 = (.ok, some [7, 8, 9]) :=
  write_read_roundtrip _ 0 ⟨⟨BLOCK_MAGIC, FLAG_ALLOCATED, 5, 5⟩, List.replicate 5 0, 0⟩
    [7, 8, 9] 3 (by decide) (by decide) (by decide) (by decide)

-- ---------------------------------------------------------------------------
-- C6: double release
-- ---------------------------------------------------------------------------

/-- **C6.** Releasing a live region and then releasing it again: the second
release leaves the whole state — statistics counters, the block's bytes, and
its release count (the storage is not returned to the system a second time)
— exactly unchanged, and reports an error.  (The second free fails the
`is_valid_block` check because the magic is now `BLOCK_FREED`; the source's
dedicated double-free branch is unreachable.) -/
theorem double_release_noop (s : AllocState) (p : Nat) (b : Block)
    (hb : lookupBlock s.blocks p = some b)
    (hv : is_valid_block b = true) :
    ether_free (ether_free s (some p)).1 (some p) =
      ((ether_free s (some p)).1, some FreeErr.invalidFree) := by
  have hfree := ether_free_live s p b hb hv
  have hlook : lookupBlock (ether_free s (some p)).1.blocks p =
      some (freeMark b.header.size b) := by
    rw [hfree]
    simp only
    rw [lookupBlock_updateBlock_self, hb, Option.map_some']
  have hvf : is_valid_block (freeMark b.header.size b) = false :=
    is_valid_block_of_freed rfl
  generalize (ether_free s (some p)).1 = s1 at hlook ⊢
  simp [ether_free, hlook, hvf]

/-- Witness for C6: double free of a fresh 4-byte block. -/
theorem double_release_noop_witness :
    ether_free (ether_free (ether_alloc initAlloc 4 true).1 (some 0)).1 (some 0) =
      ((ether_free (ether_alloc initAlloc 4 true).1 (some 0)).1,
        some FreeErr.invalidFree) :=
  double_release_noop _ 0 ⟨⟨BLOCK_MAGIC, FLAG_ALLOCATED, 4, 4⟩, List.replicate 4 0, 0⟩
    (by decide) (by decide)

-- ---------------------------------------------------------------------------
-- C9: in-place resize touches no statistics; release subtracts the shrunk size
-- ---------------------------------------------------------------------------

/-- **C9.** An in-place resize (`new_size ≤ capacity`) updates no statistics
counters; consequently `allocate(n)`, in-place resize to `m` (`0 < m < n`),
then release leaves `current_usage` exactly `n - m` above its value before
the allocate, because `ether_free` subtracts the current `size` field
(shrunk to `m`) rather than the originally allocated `n`. -/
theorem inplace_resize_stats_drift :
    (∀ (s : AllocState) (p : Nat) (b : Block) (n : Nat) (ok : Bool),
      lookupBlock s.blocks p = some b → is_valid_block b = true →
      n ≠ 0 → n ≤ b.header.capacity →
      (ether_realloc s (some p) n ok).1.stats = s.stats) ∧
    (∀ (s : AllocState) (n m : Nat), 0 < m → m < n →
      s.stats.current_usage + n < U64 →
      (runFrom s [.alloc n true, .realloc (some s.nextPtr) m true,
          .free (some s.nextPtr)]).stats.current_usage =
        s.stats.current_usage + (n - m)) := by
  constructor
  · intro s p b n ok hb hv hn hcap
    rw [ether_realloc_inplace s p b n ok hb hv hn hcap]
  · intro s n m hm hmn hcu
    have hn0 : n ≠ 0 := by omega
    have hm0 : m ≠ 0 := by omega
    show (ether_free (ether_realloc (ether_alloc s n true).1 (some s.nextPtr)
        m true).1 (some s.nextPtr)).1.stats.current_usage =
      s.stats.current_usage + (n - m)
    rw [ether_alloc_true s n hn0]
    set b1 : Block :=
      ⟨⟨BLOCK_MAGIC, FLAG_ALLOCATED, n, n⟩, List.replicate n 0, 0⟩ with hb1
    set s1 : AllocState :=
      { blocks := (s.nextPtr, b1) :: s.blocks,
        nextPtr := s.nextPtr + 1,
        stats := { total_allocated := addW s.stats.total_allocated n,
                   total_freed := s.stats.total_freed,
                   current_usage := addW s.stats.current_usage n,
                   peak_usage :=
                     if s.stats.peak_usage < addW s.stats.current_usage n
                     then addW s.stats.current_usage n else s.stats.peak_usage,
                   num_allocs := addW s.stats.num_allocs 1,
                   num_frees := s.stats.num_frees } } with hs1
    have hlook1 : lookupBlock s1.blocks s.nextPtr = some b1 := by
      rw [hs1]
      simp [lookupBlock_cons]
    have hv1 : is_valid_block b1 = true := is_valid_block_mk _ _ _ _ _ (by decide)
    rw [ether_realloc_inplace s1 s.nextPtr b1 m true hlook1 hv1 hm0
      (by rw [hb1]; exact Nat.le_of_lt hmn)]
    have hupd : updateBlock s1.blocks s.nextPtr (resizeInPlace b1.header.size m) =
        (s.nextPtr, ⟨⟨BLOCK_MAGIC, FLAG_ALLOCATED, m, n⟩, List.replicate n 0, 0⟩)
          :: s.blocks := by
      rw [hs1]
      simp only [updateBlock_cons, if_pos rfl]
      have hnotlt : ¬b1.header.size < m := by rw [hb1]; simp; omega
      simp [resizeInPlace, hb1, if_neg hnotlt]
    set b2 : Block := ⟨⟨BLOCK_MAGIC, FLAG_ALLOCATED, m, n⟩, List.replicate n 0, 0⟩ with hb2
    rw [hupd]
    have hlook2 : lookupBlock
        ({ s1 with blocks := (s.nextPtr, b2) :: s.blocks }).blocks s.nextPtr = some b2 := by
      simp [lookupBlock_cons]
    rw [ether_free_live _ s.nextPtr b2 hlook2 (is_valid_block_mk _ _ _ _ _ (by decide))]
    simp only [hs1, hb2]
    have h1 : addW s.stats.current_usage n = s.stats.current_usage + n :=
      addW_eq hcu
    rw [h1]
    rw [subW_eq (by omega) hcu]
    omega

-- ---------------------------------------------------------------------------
-- C1 part A: the wrapping ledger identity, preserved by every operation
-- ---------------------------------------------------------------------------

theorem U64_eq : U64 = 18446744073709551616 := by norm_num [U64]

theorem ledger_add {ta tf cu : Nat} (sz : Nat)
    (h : ta % U64 = (tf + cu) % U64) :
    addW ta sz % U64 = (tf + addW cu sz) % U64 := by
  unfold addW
  rw [U64_eq] at *
  omega

theorem ledger_free {ta tf cu : Nat} (sz : Nat)
    (h : ta % U64 = (tf + cu) % U64) :
    ta % U64 = (addW tf sz + subW cu sz) % U64 := by
  unfold addW subW
  rw [U64_eq] at *
  omega

theorem ledger_subW {ta tf cu : Nat} (hta : ta < U64) (htf : tf < U64)
    (hcu : cu < U64) (h : ta % U64 = (tf + cu) % U64) :
    subW ta tf = cu := by
  unfold subW
  rw [U64_eq] at *
  omega

theorem statsA_alloc (s : AllocState) (sz : Nat) (ok : Bool)
    (h : statsLt s ∧ ledgerMod s) :
    statsLt (ether_alloc s sz ok).1 ∧ ledgerMod (ether_alloc s sz ok).1 := by
  by_cases hsz : sz = 0
  · simpa [ether_alloc, hsz] using h
  cases ok with
  | false => simpa [ether_alloc, hsz] using h
  | true =>
    rw [ether_alloc_true s sz hsz]
    obtain ⟨⟨h1, h2, h3, h4, h5, h6⟩, hl⟩ := h
    refine ⟨⟨addW_lt _ _, h2, addW_lt _ _, ?_, addW_lt _ _, h6⟩, ?_⟩
    · dsimp only
      split
      · exact addW_lt _ _
      · exact h4
    · exact ledger_add sz hl

theorem statsA_free (s : AllocState) (ptr : Option Nat)
    (h : statsLt s ∧ ledgerMod s) :
    statsLt (ether_free s ptr).1 ∧ ledgerMod (ether_free s ptr).1 := by
  match ptr with
  | none => exact h
  | some p =>
    cases hlb : lookupBlock s.blocks p with
    | none => simpa [ether_free, hlb] using h
    | some b =>
      cases hvb : is_valid_block b with
      | false => simpa [ether_free, hlb, hvb] using h
      | true =>
        rw [ether_free_live s p b hlb hvb]
        obtain ⟨⟨h1, h2, h3, h4, h5, h6⟩, hl⟩ := h
        exact ⟨⟨h1, addW_lt _ _, subW_lt _ _, h4, h5, addW_lt _ _⟩,
          ledger_free b.header.size hl⟩

theorem statsA_stats_congr {s1 s2 : AllocState} (heq : s1.stats = s2.stats)
    (h : statsLt s1 ∧ ledgerMod s1) : statsLt s2 ∧ ledgerMod s2 := by
  unfold statsLt ledgerMod at *
  rw [heq] at h
  exact h

theorem statsA_realloc (s : AllocState) (ptr : Option Nat) (n : Nat) (ok : Bool)
    (h : statsLt s ∧ ledgerMod s) :
    statsLt (ether_realloc s ptr n ok).1 ∧ ledgerMod (ether_realloc s ptr n ok).1 := by
  match ptr with
  | none => exact statsA_alloc s n ok h
  | some p =>
    by_cases hn : n = 0
    · subst hn
      have := statsA_free s (some p) h
      simpa [ether_realloc] using this
    cases hlb : lookupBlock s.blocks p with
    | none => simpa [ether_realloc, hn, hlb] using h
    | some b =>
      cases hvb : is_valid_block b with
      | false => simpa [ether_realloc, hn, hlb, hvb] using h
      | true =>
        by_cases hcap : n ≤ b.header.capacity
        · rw [ether_realloc_inplace s p b n ok hlb hvb hn hcap]
          exact h
        cases ok with
        | false =>
          rw [ether_realloc_grow_false s p b n hlb hvb hn hcap]
          exact h
        | true =>
          rw [ether_realloc_grow_true s p b n hlb hvb hn hcap]
          refine statsA_free _ (some p) (statsA_stats_congr ?_ (statsA_alloc s n true h))
          rw [ether_alloc_true s n hn]

theorem statsA_step (s : AllocState) (op : AllocOp)
    (h : statsLt s ∧ ledgerMod s) :
    statsLt (stepAlloc s op) ∧ ledgerMod (stepAlloc s op) := by
  cases op with
  | alloc sz ok => exact statsA_alloc s sz ok h
  | free p => exact statsA_free s p h
  | realloc p n ok => exact statsA_realloc s p n ok h
  | reset =>
    refine ⟨⟨?_, ?_, ?_, ?_, ?_, ?_⟩, ?_⟩ <;>
      simp [stepAlloc, ether_reset_stats, Stats.zero, ledgerMod, U64_eq]

theorem statsA_run (ops : List AllocOp) : ∀ s : AllocState,
    statsLt s ∧ ledgerMod s →
    statsLt (runFrom s ops) ∧ ledgerMod (runFrom s ops) := by
  induction ops with
  | nil => exact fun s h => h
  | cons op rest ih =>
    intro s h
    exact ih _ (statsA_step s op h)

-- ---------------------------------------------------------------------------
-- C1 part B: the exact statistics invariant on reset-free, non-wrapping runs
-- ---------------------------------------------------------------------------

theorem capContrib_live {b : Block} (h : is_valid_block b = true) :
    capContrib b = b.header.capacity := by
  simp [capContrib, h]

theorem capContrib_dead {b : Block} (h : is_valid_block b = false) :
    capContrib b = 0 := by
  simp [capContrib, h]

theorem slackContrib_live {b : Block} (h : is_valid_block b = true) :
    slackContrib b = 0 := by
  simp [slackContrib, h]

theorem slackContrib_dead {b : Block} (h : is_valid_block b = false) :
    slackContrib b = b.header.capacity - b.header.size := by
  simp [slackContrib, h]

theorem statsB_alloc_cons (s : AllocState) (sz : Nat) (nb : Block)
    (hInv : StatsInv s)
    (hbound : s.stats.total_allocated + sz < U64)
    (hvnb : is_valid_block nb = true)
    (hcapnb : nb.header.capacity = sz)
    (hsznb : nb.header.size ≤ nb.header.capacity) :
    StatsInv
      { blocks := (s.nextPtr, nb) :: s.blocks
        nextPtr := s.nextPtr + 1
        stats := { total_allocated := addW s.stats.total_allocated sz,
                   total_freed := s.stats.total_freed,
                   current_usage := addW s.stats.current_usage sz,
                   peak_usage :=
                     if s.stats.peak_usage < addW s.stats.current_usage sz
                     then addW s.stats.current_usage sz else s.stats.peak_usage,
                   num_allocs := addW s.stats.num_allocs 1,
                   num_frees := s.stats.num_frees } } := by
  obtain ⟨hcu, hled, hpk, hpta, hwf⟩ := hInv
  have hcu_le : s.stats.current_usage ≤ s.stats.total_allocated := by omega
  have hta : addW s.stats.total_allocated sz = s.stats.total_allocated + sz :=
    addW_eq hbound
  have hcu2 : addW s.stats.current_usage sz = s.stats.current_usage + sz :=
    addW_eq (by omega)
  refine ⟨?_, ?_, ?_, ?_, ?_⟩ <;> (try dsimp only)
  · rw [hcu2, sumBlocks_cons, sumBlocks_cons, capContrib_live hvnb,
      slackContrib_live hvnb]
    try dsimp only
    rw [hcapnb]
    omega
  · rw [hta, hcu2]
    omega
  · rw [hcu2]
    split <;> omega
  · rw [hta, hcu2]
    split <;> omega
  · intro pb hpb
    rcases List.mem_cons.mp hpb with rfl | h
    · exact hsznb
    · exact hwf pb h

theorem statsB_alloc (s : AllocState) (sz : Nat) (ok : Bool)
    (hInv : StatsInv s)
    (hbound : s.stats.total_allocated + sz < U64) :
    StatsInv (ether_alloc s sz ok).1 ∧
    (ether_alloc s sz ok).1.stats.total_allocated ≤
      s.stats.total_allocated + sz := by
  by_cases hsz : sz = 0
  · refine ⟨by simpa [ether_alloc, hsz] using hInv, ?_⟩
    simp [ether_alloc, hsz]
  cases ok with
  | false =>
    refine ⟨by simpa [ether_alloc, hsz] using hInv, ?_⟩
    simp [ether_alloc, hsz]
  | true =>
    rw [ether_alloc_true s sz hsz]
    refine ⟨statsB_alloc_cons s sz _ hInv hbound
      (is_valid_block_mk _ _ _ _ _ (by decide)) rfl (Nat.le_refl sz), ?_⟩
    show addW s.stats.total_allocated sz ≤ _
    rw [addW_eq hbound]

theorem statsB_free (s : AllocState) (ptr : Option Nat)
    (hInv : StatsInv s) (hta : s.stats.total_allocated < U64) :
    StatsInv (ether_free s ptr).1 ∧
    (ether_free s ptr).1.stats.total_allocated = s.stats.total_allocated := by
  match ptr with
  | none => exact ⟨hInv, rfl⟩
  | some p =>
    cases hlb : lookupBlock s.blocks p with
    | none => exact ⟨by simpa [ether_free, hlb] using hInv, by simp [ether_free, hlb]⟩
    | some b =>
      cases hvb : is_valid_block b with
      | false =>
        exact ⟨by simpa [ether_free, hlb, hvb] using hInv,
          by simp [ether_free, hlb, hvb]⟩
      | true =>
        rw [ether_free_live s p b hlb hvb]
        obtain ⟨hcu, hled, hpk, hpta, hwf⟩ := hInv
        have hszcap : b.header.size ≤ b.header.capacity :=
          hwf (p, b) (lookupBlock_mem hlb)
        have hcapLe : b.header.capacity ≤ sumBlocks capContrib s.blocks := by
          have := sumBlocks_lookup_le capContrib hlb
          rwa [capContrib_live hvb] at this
        have hszcu : b.header.size ≤ s.stats.current_usage := by omega
        have hcuta : s.stats.current_usage ≤ s.stats.total_allocated := by omega
        have htf : addW s.stats.total_freed b.header.size =
            s.stats.total_freed + b.header.size := addW_eq (by omega)
        have hcu' : subW s.stats.current_usage b.header.size =
            s.stats.current_usage - b.header.size := subW_eq hszcu (by omega)
        have hvdead : is_valid_block (freeMark b.header.size b) = false :=
          is_valid_block_of_freed rfl
        have hsum1 := sumBlocks_updateBlock capContrib (freeMark b.header.size) hlb
        have hsum2 := sumBlocks_updateBlock slackContrib (freeMark b.header.size) hlb
        rw [capContrib_live hvb, capContrib_dead hvdead] at hsum1
        rw [slackContrib_live hvb, slackContrib_dead hvdead] at hsum2
        have hfmcap : (freeMark b.header.size b).header.capacity =
            b.header.capacity := rfl
        have hfmsz : (freeMark b.header.size b).header.size = b.header.size := rfl
        rw [hfmcap, hfmsz] at hsum2
        refine ⟨⟨?_, ?_, ?_, ?_, ?_⟩, rfl⟩ <;> dsimp only
        · rw [hcu']
          omega
        · rw [htf, hcu']
          omega
        · rw [hcu']
          omega
        · exact hpta
        · intro pb hpb
          obtain ⟨q0, c0⟩ := pb
          rcases mem_updateBlock hlb hpb with h | rfl
          · exact hwf _ h
          · exact hszcap

theorem statsB_inplace (s : AllocState) (p : Nat) (b : Block) (n : Nat)
    (hlb : lookupBlock s.blocks p = some b) (hvb : is_valid_block b = true)
    (hcap : n ≤ b.header.capacity)
    (hInv : StatsInv s) :
    StatsInv { s with
      blocks := updateBlock s.blocks p (resizeInPlace b.header.size n) } := by
  obtain ⟨hcu, hled, hpk, hpta, hwf⟩ := hInv
  have hvb' : is_valid_block (resizeInPlace b.header.size n b) = true := by
    rw [is_valid_block_resizeInPlace]
    exact hvb
  have hsum1 := sumBlocks_updateBlock capContrib (resizeInPlace b.header.size n) hlb
  have hsum2 := sumBlocks_updateBlock slackContrib (resizeInPlace b.header.size n) hlb
  rw [capContrib_live hvb, capContrib_live hvb'] at hsum1
  rw [slackContrib_live hvb, slackContrib_live hvb'] at hsum2
  have hrcap : (resizeInPlace b.header.size n b).header.capacity =
      b.header.capacity := rfl
  rw [hrcap] at hsum1
  refine ⟨?_, hled, hpk, hpta, ?_⟩ <;> dsimp only
  · rw [hcu]
    omega
  · intro pb hpb
    obtain ⟨q0, c0⟩ := pb
    rcases mem_updateBlock hlb hpb with h | rfl
    · exact hwf _ h
    · exact hcap


theorem statsB_realloc (s : AllocState) (ptr : Option Nat) (n : Nat) (ok : Bool)
    (hInv : StatsInv s)
    (hbound : s.stats.total_allocated + n < U64) :
    StatsInv (ether_realloc s ptr n ok).1 ∧
    (ether_realloc s ptr n ok).1.stats.total_allocated ≤
      s.stats.total_allocated + n := by
  match ptr with
  | none => exact statsB_alloc s n ok hInv hbound
  | some p =>
    by_cases hn : n = 0
    · subst hn
      have h := statsB_free s (some p) hInv (by omega)
      refine ⟨by simpa [ether_realloc] using h.1, ?_⟩
      have : (ether_realloc s (some p) 0 ok).1 = (ether_free s (some p)).1 := by
        simp [ether_realloc]
      rw [this, h.2]
      omega
    cases hlb : lookupBlock s.blocks p with
    | none =>
      exact ⟨by simpa [ether_realloc, hn, hlb] using hInv,
        by simp [ether_realloc, hn, hlb]⟩
    | some b =>
      cases hvb : is_valid_block b with
      | false =>
        exact ⟨by simpa [ether_realloc, hn, hlb, hvb] using hInv,
          by simp [ether_realloc, hn, hlb, hvb]⟩
      | true =>
        by_cases hcap : n ≤ b.header.capacity
        · rw [ether_realloc_inplace s p b n ok hlb hvb hn hcap]
          exact ⟨statsB_inplace s p b n hlb hvb hcap hInv, by dsimp only; omega⟩
        cases ok with
        | false =>
          rw [ether_realloc_grow_false s p b n hlb hvb hn hcap]
          exact ⟨hInv, by dsimp only; omega⟩
        | true =>
          rw [ether_realloc_grow_true s p b n hlb hvb hn hcap]
          have h1 := statsB_alloc_cons s n
            (copyInto b.data (if b.header.size < n then b.header.size else n)
              ⟨⟨BLOCK_MAGIC, FLAG_ALLOCATED, n, n⟩, List.replicate n 0, 0⟩)
            hInv hbound
            (by rw [is_valid_block_copyInto]
                exact is_valid_block_mk _ _ _ _ _ (by decide))
            rfl (Nat.le_refl n)
          have h2 := statsB_free _ (some p) h1 (by
            show addW s.stats.total_allocated n < U64
            rw [addW_eq hbound]
            exact hbound)
          refine ⟨h2.1, ?_⟩
          rw [h2.2]
          show addW s.stats.total_allocated n ≤ _
          rw [addW_eq hbound]

theorem statsB_run (ops : List AllocOp) : ∀ s : AllocState,
    StatsInv s → AllocOp.reset ∉ ops →
    s.stats.total_allocated + budget ops < U64 →
    StatsInv (runFrom s ops) ∧
    (runFrom s ops).stats.total_allocated ≤
      s.stats.total_allocated + budget ops := by
  induction ops with
  | nil =>
    intro s hInv _ _
    exact ⟨hInv, Nat.le_add_right _ _⟩
  | cons op rest ih =>
    intro s hInv hnr hbound
    have hnr1 : op ≠ AllocOp.reset := fun h => hnr (h ▸ List.mem_cons_self _ _)
    have hnr2 : AllocOp.reset ∉ rest := fun h => hnr (List.mem_cons_of_mem _ h)
    have hbud : budget (op :: rest) = opBudget op + budget rest := by
      simp [budget]
    rw [hbud] at hbound
    have hstep : StatsInv (stepAlloc s op) ∧
        (stepAlloc s op).stats.total_allocated ≤
          s.stats.total_allocated + opBudget op := by
      cases op with
      | alloc sz ok => exact statsB_alloc s sz ok hInv (by simp [opBudget] at *; omega)
      | free p =>
        have := statsB_free s p hInv (by omega)
        refine ⟨this.1, ?_⟩
        show (ether_free s p).1.stats.total_allocated ≤ _
        rw [this.2]
        simp [opBudget]
      | realloc p m ok => exact statsB_realloc s p m ok hInv (by simp [opBudget] at *; omega)
      | reset => exact absurd rfl hnr1
    have hrun := ih (stepAlloc s op) hstep.1 hnr2 (by omega)
    have hreq : runFrom s (op :: rest) = runFrom (stepAlloc s op) rest := rfl
    rw [hreq, hbud]
    exact ⟨hrun.1, by omega⟩

-- ---------------------------------------------------------------------------
-- C1: the statistics invariants
-- ---------------------------------------------------------------------------

/-- **C1 (amended).** After any sequence of allocate/release/resize/reset
operations from the initial zeroed statistics, the C expression
`total_allocated - total_freed` (wrapping 64-bit `size_t` subtraction)
equals `current_usage`.  The inequality `current_usage ≤ peak_usage`
additionally holds for every sequence that contains no `reset_statistics`
and allocates fewer than `2^64` bytes in total; it is *not* unconditional —
see the counterexample, where a release performed after a reset wraps
`current_usage` past `peak_usage`. -/
theorem stats_ledger_and_peak :
    (∀ ops : List AllocOp,
      subW (runAllocOps ops).stats.total_allocated
          (runAllocOps ops).stats.total_freed =
        (runAllocOps ops).stats.current_usage) ∧
    (∀ ops : List AllocOp, AllocOp.reset ∉ ops → budget ops < U64 →
      (runAllocOps ops).stats.current_usage ≤
        (runAllocOps ops).stats.peak_usage) := by
  constructor
  · intro ops
    have hinit : statsLt initAlloc ∧ ledgerMod initAlloc := by
      refine ⟨⟨?_, ?_, ?_, ?_, ?_, ?_⟩, rfl⟩ <;> norm_num [initAlloc, Stats.zero, U64]
    have h := statsA_run ops initAlloc hinit
    obtain ⟨⟨h1, h2, h3, _, _, _⟩, hl⟩ := h
    exact ledger_subW h1 h2 h3 hl
  · intro ops hnr hbud
    have hinit : StatsInv initAlloc := by
      refine ⟨?_, ?_, ?_, ?_, ?_⟩ <;>
        simp [initAlloc, Stats.zero, sumBlocks]
    have h := statsB_run ops initAlloc hinit hnr
      (by simpa [initAlloc, Stats.zero] using hbud)
    exact h.1.2.2.1

/-- Witness for C1: after `alloc 3` then `free`, both the wrapping ledger
identity and the peak inequality hold on the resulting statistics. -/
theorem stats_ledger_and_peak_witness :
    (subW (runAllocOps [.alloc 3 true, .free (some 0)]).stats.total_allocated
        (runAllocOps [.alloc 3 true, .free (some 0)]).stats.total_freed =
      (runAllocOps [.alloc 3 true, .free (some 0)]).stats.current_usage) ∧
    ((runAllocOps [.alloc 3 true, .free (some 0)]).stats.current_usage ≤
      (runAllocOps [.alloc 3 true, .free (some 0)]).stats.peak_usage) :=
  ⟨stats_ledger_and_peak.1 [.alloc 3 true, .free (some 0)],
    stats_ledger_and_peak.2 [.alloc 3 true, .free (some 0)]
      (by decide) (by decide)⟩

/-- Counterexample to C1 as stated: allocate one byte, call
`reset_statistics`, then release the block.  `ether_free` subtracts the
block's size from the freshly zeroed `current_usage`, which wraps to
`2^64 - 1`, while `peak_usage` is 0 — so `current_usage ≤ peak_usage` fails
after this sequence of allocate/reset/release operations. -/
theorem stats_peak_cex :
    ¬((runAllocOps [.alloc 1 true, .reset, .free (some 0)]).stats.current_usage ≤
      (runAllocOps [.alloc 1 true, .reset, .free (some 0)]).stats.peak_usage) := by
  decide

-- ---------------------------------------------------------------------------
-- C7: the realloc contract
-- ---------------------------------------------------------------------------

/-- **C7.** `ether_realloc`'s full contract: a null pointer behaves as
`ether_alloc`; size 0 behaves as `ether_free` and yields no region; a new
size within capacity reuses the same region in place with the stored size
updated and newly exposed bytes zeroed; a larger size allocates a new
region, copies `min(old_size, new_size)` bytes and frees the old region;
and an allocation failure leaves the original state (region and contents)
entirely unchanged. -/
theorem ether_realloc_contract :
    (∀ (s : AllocState) (n : Nat) (ok : Bool),
      ether_realloc s none n ok = ether_alloc s n ok) ∧
    (∀ (s : AllocState) (p : Nat) (ok : Bool),
      ether_realloc s (some p) 0 ok = ((ether_free s (some p)).1, none)) ∧
    (∀ (s : AllocState) (p : Nat) (b : Block) (n : Nat) (ok : Bool),
      lookupBlock s.blocks p = some b → is_valid_block b = true →
      n ≠ 0 → n ≤ b.header.capacity →
      (ether_realloc s (some p) n ok).2 = some p ∧
      (ether_realloc s (some p) n ok).1.stats = s.stats ∧
      ether_size (ether_realloc s (some p) n ok).1 (some p) = n ∧
      (b.header.size ≤ n → b.header.size ≤ b.data.length →
        ether_read (ether_realloc s (some p) n ok).1 (some p) true n =
          (.ok, some (b.data.take b.header.size ++
            List.replicate (n - b.header.size) 0)))) ∧
    (∀ (s : AllocState) (p : Nat) (b : Block) (n : Nat),
      lookupBlock s.blocks p = some b → is_valid_block b = true →
      n ≠ 0 → b.header.capacity < n →
      b.header.size ≤ b.header.capacity → b.header.size ≤ b.data.length →
      p ≠ s.nextPtr →
      (ether_realloc s (some p) n true).2 = some s.nextPtr ∧
      ether_size (ether_realloc s (some p) n true).1 (some s.nextPtr) = n ∧
      ether_read (ether_realloc s (some p) n true).1 (some s.nextPtr) true
          (min b.header.size n) =
        (.ok, some (b.data.take (min b.header.size n))) ∧
      (∃ b', lookupBlock (ether_realloc s (some p) n true).1.blocks p = some b' ∧
        b'.header.magic = BLOCK_FREED)) ∧
    (∀ (s : AllocState) (p : Nat) (b : Block) (n : Nat),
      lookupBlock s.blocks p = some b → is_valid_block b = true →
      n ≠ 0 → b.header.capacity < n →
      ether_realloc s (some p) n false = (s, none)) := by
  refine ⟨fun s n ok => rfl, fun s p ok => by simp [ether_realloc], ?_, ?_, ?_⟩
  · -- in-place case
    intro s p b n ok hb hv hn hcap
    rw [ether_realloc_inplace s p b n ok hb hv hn hcap]
    have hlk : lookupBlock (updateBlock s.blocks p
        (resizeInPlace b.header.size n)) p =
        some (resizeInPlace b.header.size n b) := by
      rw [lookupBlock_updateBlock_self, hb, Option.map_some']
    have hvf : is_valid_block (resizeInPlace b.header.size n b) = true := by
      rw [is_valid_block_resizeInPlace]
      exact hv
    refine ⟨rfl, rfl, ?_, ?_⟩
    · rw [ether_size_eq _ p _ hlk hvf]
      rfl
    · intro hle hdl
      rw [ether_read_some _ p _ n hlk hvf (Nat.le_refl n)]
      have hres : (resizeInPlace b.header.size n b).data.take n =
          b.data.take b.header.size ++ List.replicate (n - b.header.size) 0 := by
        show (if b.header.size < n then
            b.data.take b.header.size ++
              List.replicate (n - b.header.size) 0 ++ b.data.drop n
          else b.data).take n = _
        by_cases hlt : b.header.size < n
        · rw [if_pos hlt]
          have hlen1 : (b.data.take b.header.size ++
              List.replicate (n - b.header.size) 0).length = n := by
            simp [List.length_take]
            omega
          rw [List.take_append_eq_append_take, hlen1, Nat.sub_self,
            List.take_zero, List.append_nil,
            List.take_of_length_le (le_of_eq hlen1)]
        · have heq : b.header.size = n := by omega
          rw [if_neg hlt, heq, Nat.sub_self, List.replicate_zero,
            List.append_nil]
      rw [hres]
  · -- grow case
    intro s p b n hb hv hn hncap hszcap hdl hnp
    have hlt : b.header.size < n := by omega
    have hnle : ¬n ≤ b.header.capacity := by omega
    have hmin : min b.header.size n = b.header.size := Nat.min_eq_left (by omega)
    have hcopy : (if b.header.size < n then b.header.size else n) = b.header.size :=
      if_pos hlt
    have hr := ether_realloc_grow_true s p b n hb hv hn hnle
    rw [hcopy] at hr
    have hlkp : lookupBlock
        ((s.nextPtr, copyInto b.data b.header.size
            ⟨⟨BLOCK_MAGIC, FLAG_ALLOCATED, n, n⟩, List.replicate n 0, 0⟩)
          :: s.blocks) p = some b := by
      rw [lookupBlock_cons, if_neg (fun h => hnp h.symm)]
      exact hb
    rw [ether_free_live _ p b hlkp hv] at hr
    rw [hr]
    have hvnew : is_valid_block (copyInto b.data b.header.size
        ⟨⟨BLOCK_MAGIC, FLAG_ALLOCATED, n, n⟩, List.replicate n 0, 0⟩) = true := by
      rw [is_valid_block_copyInto]
      exact is_valid_block_mk _ _ _ _ _ (by decide)
    have hupd1 : updateBlock
        ((s.nextPtr, copyInto b.data b.header.size
            ⟨⟨BLOCK_MAGIC, FLAG_ALLOCATED, n, n⟩, List.replicate n 0, 0⟩)
          :: s.blocks) p (freeMark b.header.size) =
        (s.nextPtr, copyInto b.data b.header.size
            ⟨⟨BLOCK_MAGIC, FLAG_ALLOCATED, n, n⟩, List.replicate n 0, 0⟩) ::
          updateBlock s.blocks p (freeMark b.header.size) := by
      rw [updateBlock_cons, if_neg (fun h => hnp h.symm)]
    have hlknp : lookupBlock (updateBlock
        ((s.nextPtr, copyInto b.data b.header.size
            ⟨⟨BLOCK_MAGIC, FLAG_ALLOCATED, n, n⟩, List.replicate n 0, 0⟩)
          :: s.blocks) p (freeMark b.header.size)) s.nextPtr =
        some (copyInto b.data b.header.size
          ⟨⟨BLOCK_MAGIC, FLAG_ALLOCATED, n, n⟩, List.replicate n 0, 0⟩) := by
      rw [hupd1, lookupBlock_cons, if_pos rfl]
    refine ⟨rfl, ?_, ?_, ?_⟩
    · -- size of the new region
      rw [ether_size_eq _ s.nextPtr _ hlknp hvnew]
      rfl
    · -- contents of the new region
      rw [ether_read_some _ s.nextPtr _ (min b.header.size n) hlknp hvnew
        (by rw [hmin]; exact Nat.le_of_lt hlt)]
      have htk : (copyInto b.data b.header.size
          ⟨⟨BLOCK_MAGIC, FLAG_ALLOCATED, n, n⟩,
            List.replicate n 0, 0⟩).data.take (min b.header.size n) =
          b.data.take (min b.header.size n) := by
        rw [hmin]
        show (b.data.take b.header.size ++
            (List.replicate n 0).drop b.header.size).take b.header.size = _
        have hlen : (b.data.take b.header.size).length = b.header.size := by
          simp [List.length_take]
          omega
        rw [List.take_append_eq_append_take, hlen, Nat.sub_self,
          List.take_zero, List.append_nil, List.take_of_length_le (le_of_eq hlen)]
      rw [htk]
    · -- the old region is freed
      refine ⟨freeMark b.header.size b, ?_, rfl⟩
      rw [hupd1, lookupBlock_cons, if_neg (fun h => hnp h.symm),
        lookupBlock_updateBlock_self, hb, Option.map_some']
  · -- allocation-failure case
    intro s p b n hb hv hn hncap
    exact ether_realloc_grow_false s p b n hb hv hn (by omega)

/-- Witness for C7: each clause of the realloc contract at concrete inputs —
a 3-byte block grown in place within a 6-byte capacity, grown to a fresh
region, and a failing allocation. -/
theorem ether_realloc_contract_witness :
    (ether_realloc initAlloc none 4 true = ether_alloc initAlloc 4 true) ∧
    (ether_realloc (ether_alloc initAlloc 4 true).1 (some 0) 0 true =
      ((ether_free (ether_alloc initAlloc 4 true).1 (some 0)).1, none)) ∧
    ((ether_realloc (ether_realloc (ether_alloc initAlloc 6 true).1
        (some 0) 3 true).1 (some 0) 5 true).2 = some 0) ∧
    ((ether_realloc (ether_alloc initAlloc 2 true).1 (some 0) 7 true).2 = some 1) ∧
    (ether_realloc (ether_alloc initAlloc 2 true).1 (some 0) 7 false =
      ((ether_alloc initAlloc 2 true).1, none)) := by
  refine ⟨ether_realloc_contract.1 initAlloc 4 true,
    ether_realloc_contract.2.1 (ether_alloc initAlloc 4 true).1 0 true, ?_, ?_, ?_⟩
  · exact (ether_realloc_contract.2.2.1 (ether_realloc (ether_alloc initAlloc 6 true).1
      (some 0) 3 true).1 0 ⟨⟨BLOCK_MAGIC, FLAG_ALLOCATED, 3, 6⟩, List.replicate 6 0, 0⟩
      5 true (by decide) (by decide) (by decide) (by decide)).1
  · exact (ether_realloc_contract.2.2.2.1 (ether_alloc initAlloc 2 true).1 0
      ⟨⟨BLOCK_MAGIC, FLAG_ALLOCATED, 2, 2⟩, List.replicate 2 0, 0⟩ 7
      (by decide) (by decide) (by decide) (by decide) (by decide) (by decide)
      (by decide)).1
  · exact ether_realloc_contract.2.2.2.2 (ether_alloc initAlloc 2 true).1 0
      ⟨⟨BLOCK_MAGIC, FLAG_ALLOCATED, 2, 2⟩, List.replicate 2 0, 0⟩ 7
      (by decide) (by decide) (by decide) (by decide)

-- ---------------------------------------------------------------------------
-- C3: READ silently caps an over-large request
-- ---------------------------------------------------------------------------

/-- **C3.** A READ request on a live handle whose `size` field exceeds the
block size stored in the handle table is silently capped: the server
responds OK carrying exactly the stored block size's worth of bytes — the
first `block_size` bytes of the block — and no error is raised, unlike
WRITE's overflow rule.  (`scratchOk = true`: the scratch-buffer `malloc`
succeeds.) -/
theorem handle_read_caps (st : ServerState) (hdr : MsgHeader) (p bsize : Nat)
    (b : Block)
    (hlk : lookup_handle st.table hdr.handle = some (p, bsize))
    (hb : lookupBlock st.alloc.blocks p = some b)
    (hv : is_valid_block b = true)
    (hsz : b.header.size = bsize)
    (hdl : bsize ≤ b.data.length)
    (hbig : bsize < hdr.size) :
    handle_read st hdr true = (st, ⟨ETHER_CMD_OK, hdr.handle, b.data.take bsize⟩) ∧
    (b.data.take bsize).length = bsize := by
  have hread := ether_read_some st.alloc p b bsize hb hv (by omega)
  constructor
  · simp [handle_read, hlk, hbig, hread]
  · rw [List.length_take]
    omega

/-- Witness for C3: allocate 10 bytes through the server, then READ with a
99-byte request — the response is OK with exactly 10 payload bytes. -/
theorem handle_read_caps_witness :
    handle_read (handle_alloc initServer
        ⟨ETHER_MAGIC, ETHER_PROTOCOL_VER, ETHER_CMD_ALLOC, 0, 0, 10, 0⟩ true).1
      ⟨ETHER_MAGIC, ETHER_PROTOCOL_VER, ETHER_CMD_READ, 0, 1, 99, 0⟩ true =
      ((handle_alloc initServer
        ⟨ETHER_MAGIC, ETHER_PROTOCOL_VER, ETHER_CMD_ALLOC, 0, 0, 10, 0⟩ true).1,
        ⟨ETHER_CMD_OK, 1, (List.replicate 10 0).take 10⟩) ∧
    ((List.replicate 10 0).take 10).length = 10 :=
  handle_read_caps _ _ 0 10 ⟨⟨BLOCK_MAGIC, FLAG_ALLOCATED, 10, 10⟩,
      List.replicate 10 0, 0⟩
    (by decide) (by decide) (by decide) (by decide) (by decide) (by decide)

-- ---------------------------------------------------------------------------
-- C4: WRITE overflow is a hard error with no partial write
-- ---------------------------------------------------------------------------

/-- **C4.** A WRITE request whose `size` exceeds the block size stored in
the handle table yields an ERROR response and the server state is entirely
unchanged — no partial write is attempted, so the block's bytes and
`size_of` are untouched. -/
theorem handle_write_overflow (st : ServerState) (hdr : MsgHeader)
    (payload : Option (List Nat)) (p bsize : Nat)
    (hlk : lookup_handle st.table hdr.handle = some (p, bsize))
    (hbig : bsize < hdr.size) :
    handle_write st hdr payload = (st, ⟨ETHER_CMD_ERROR, hdr.handle, []⟩) ∧
    ether_size (handle_write st hdr payload).1.alloc (some p) =
      ether_size st.alloc (some p) := by
  have h : handle_write st hdr payload = (st, ⟨ETHER_CMD_ERROR, hdr.handle, []⟩) := by
    simp [handle_write, hlk, hbig]
  exact ⟨h, by rw [h]⟩

/-- Witness for C4 (Scenario B): a 10-byte block, WRITE with size 100 —
ERROR, and `size_of` is still 10 on the unchanged state. -/
theorem handle_write_overflow_witness :
    (handle_write
        ⟨(ether_alloc initAlloc 10 true).1, [⟨1, some 0, 10, true⟩], 2⟩
        ⟨ETHER_MAGIC, ETHER_PROTOCOL_VER, ETHER_CMD_WRITE, 0, 1, 100, 0⟩
        (some (List.replicate 100 7)) =
      (⟨(ether_alloc initAlloc 10 true).1, [⟨1, some 0, 10, true⟩], 2⟩,
        ⟨ETHER_CMD_ERROR, 1, []⟩)) ∧
    ether_size (handle_write
        ⟨(ether_alloc initAlloc 10 true).1, [⟨1, some 0, 10, true⟩], 2⟩
        ⟨ETHER_MAGIC, ETHER_PROTOCOL_VER, ETHER_CMD_WRITE, 0, 1, 100, 0⟩
        (some (List.replicate 100 7))).1.alloc (some 0) =
      ether_size (ether_alloc initAlloc 10 true).1 (some 0) :=
  handle_write_overflow _ _ _ 0 10 (by decide) (by decide)

-- ---------------------------------------------------------------------------
-- C10: a zero-size WRITE on a live handle is an ERROR
-- ---------------------------------------------------------------------------

/-- **C10.** A WRITE command with `size = 0` on a live handle draws an
ERROR response, not OK: `handle_client` reads no payload when the header's
size is 0, so `handle_write` passes a NULL payload pointer to
`ether_write`, which rejects it as Invalid even though 0 does not exceed
the stored block size. -/
theorem handle_write_zero_size_error (st : ServerState) (hdr : MsgHeader)
    (payloadBytes : List Nat) (allocOk scratchOk : Bool) (p bsize : Nat)
    (hm : hdr.magic = ETHER_MAGIC)
    (hver : hdr.version = ETHER_PROTOCOL_VER)
    (hcmd : hdr.command = ETHER_CMD_WRITE)
    (hs0 : hdr.size = 0)
    (hlk : lookup_handle st.table hdr.handle = some (p, bsize)) :
    serverStep st hdr payloadBytes allocOk scratchOk =
      (st, some ⟨ETHER_CMD_ERROR, hdr.handle, []⟩) := by
  have hval : ether_msg_validate hdr = true := by
    simp [ether_msg_validate, hm, hver, hs0, ETHER_MAX_PAYLOAD]
  simp [serverStep, hval, hcmd, hs0, ETHER_CMD_PING, ETHER_CMD_ALLOC,
    ETHER_CMD_FREE, ETHER_CMD_WRITE, ETHER_CMD_READ, handle_write, hlk,
    ether_write]

/-- Witness for C10: a live 10-byte handle, WRITE with size 0 — the
dispatched response is ERROR carrying the handle. -/
theorem handle_write_zero_size_error_witness :
    serverStep ⟨(ether_alloc initAlloc 10 true).1, [⟨1, some 0, 10, true⟩], 2⟩
        ⟨ETHER_MAGIC, ETHER_PROTOCOL_VER, ETHER_CMD_WRITE, 0, 1, 0, 0⟩
        [] true true =
      (⟨(ether_alloc initAlloc 10 true).1, [⟨1, some 0, 10, true⟩], 2⟩,
        some ⟨ETHER_CMD_ERROR, 1, []⟩) :=
  handle_write_zero_size_error _ _ [] true true 0 10
    (by decide) (by decide) (by decide) (by decide) (by decide)

-- ---------------------------------------------------------------------------
-- C8: handle assignment is monotone and non-zero (below the 64-bit wrap)
-- ---------------------------------------------------------------------------

theorem store_handle_spec (tbl : List HandleEntry) (next p sz : Nat) :
    store_handle tbl next p sz = (tbl, next, 0) ∨
    ((store_handle tbl next p sz).2.2 = next ∧
      (store_handle tbl next p sz).2.1 = (next + 1) % U64 ∧
      (store_handle tbl next p sz).1 ≠ tbl) := by
  induction tbl with
  | nil => exact Or.inl rfl
  | cons e rest ih =>
    cases hin : e.in_use with
    | true =>
      rcases hrec : store_handle rest next p sz with ⟨r, nx, h⟩
      have hstep : store_handle (e :: rest) next p sz = (e :: r, nx, h) := by
        simp [store_handle, hin, hrec]
      rcases ih with hl | ⟨h1, h2, h3⟩
      · rw [hrec] at hl
        injection hl with hr hnxh
        injection hnxh with hnx hh
        subst hr
        subst hnx
        subst hh
        exact Or.inl hstep
      · rw [hrec] at h1 h2 h3
        simp only at h1 h2 h3
        rw [hstep]
        refine Or.inr ⟨h1, h2, ?_⟩
        intro hcontra
        exact h3 (List.tail_eq_of_cons_eq hcontra)
    | false =>
      refine Or.inr ?_
      have hstep : store_handle (e :: rest) next p sz =
          (⟨next, some p, sz, true⟩ :: rest, (next + 1) % U64, next) := by
        simp [store_handle, hin]
      rw [hstep]
      refine ⟨rfl, rfl, ?_⟩
      intro hcontra
      have := congrArg (fun l => (l.headD ⟨0, none, 0, false⟩).in_use) hcontra
      simp [hin] at this

theorem store_handle_exhausted (tbl : List HandleEntry) (next p sz : Nat)
    (hfull : ∀ e ∈ tbl, e.in_use = true) :
    store_handle tbl next p sz = (tbl, next, 0) := by
  induction tbl with
  | nil => rfl
  | cons e rest ih =>
    have hin : e.in_use = true := hfull e (List.mem_cons_self _ _)
    have hrec : store_handle rest next p sz = (rest, next, 0) :=
      ih fun x hx => hfull x (List.mem_cons_of_mem _ hx)
    simp [store_handle, hin, hrec]

theorem tableRun_inv (ops : List TOp) : ∀ t : TState,
    (0 < t.next ∧ (∀ r ∈ t.issued, r ≠ 0 ∧ r < t.next) ∧
      List.Pairwise (· < ·) t.issued) →
    t.next + storeCount ops < U64 →
    (0 < (ops.foldl stepTable t).next ∧
      (∀ r ∈ (ops.foldl stepTable t).issued,
        r ≠ 0 ∧ r < (ops.foldl stepTable t).next) ∧
      List.Pairwise (· < ·) (ops.foldl stepTable t).issued) := by
  induction ops with
  | nil => exact fun t h _ => h
  | cons op rest ih =>
    intro t ⟨hpos, hiss, hpw⟩ hbound
    cases op with
    | remove h =>
      have hsc : storeCount (TOp.remove h :: rest) = storeCount rest := by
        simp [storeCount]
      rw [hsc] at hbound
      refine ih _ ⟨hpos, hiss, hpw⟩ ?_
      have hnx : (stepTable t (TOp.remove h)).next = t.next := rfl
      rw [hnx]
      exact hbound
    | store p sz =>
      have hsc : storeCount (TOp.store p sz :: rest) = storeCount rest + 1 := by
        simp [storeCount]
      rw [hsc] at hbound
      rcases store_handle_spec t.entries t.next p sz with hex | ⟨hh, hnx, hne⟩
      · -- exhaustion: nothing stored, nothing issued
        have hstep : stepTable t (TOp.store p sz) = t := by
          rcases t with ⟨es0, nx0, iss0⟩
          simp only [stepTable, hex]
          simp
        rw [List.foldl_cons, hstep]
        exact ih t ⟨hpos, hiss, hpw⟩ (by omega)
      · -- a slot was taken: handle t.next issued, counter advances
        have hlt : t.next + 1 < U64 := by omega
        have hmod : (t.next + 1) % U64 = t.next + 1 := Nat.mod_eq_of_lt hlt
        have hstep : stepTable t (TOp.store p sz) =
            { entries := (store_handle t.entries t.next p sz).1,
              next := t.next + 1,
              issued := t.issued ++ [t.next] } := by
          rcases hsh : store_handle t.entries t.next p sz with ⟨es, nx, h⟩
          rw [hsh] at hh hnx hne
          simp only at hh hnx hne
          simp only [stepTable, hsh]
          rw [if_neg (fun hc => hne hc.2), hh, hnx, hmod]
        rw [List.foldl_cons, hstep]
        refine ih _ ⟨?_, ?_, ?_⟩ ?_
        · show 0 < t.next + 1
          omega
        · show ∀ r ∈ t.issued ++ [t.next], r ≠ 0 ∧ r < t.next + 1
          intro r hr
          rcases List.mem_append.mp hr with hr | hr
          · refine ⟨(hiss r hr).1, ?_⟩
            have := (hiss r hr).2
            omega
          · rw [List.mem_singleton.mp hr]
            exact ⟨by omega, by omega⟩
        · show List.Pairwise (· < ·) (t.issued ++ [t.next])
          rw [List.pairwise_append]
          refine ⟨hpw, List.pairwise_singleton _ _, ?_⟩
          intro a ha b hb
          rw [List.mem_singleton.mp hb]
          exact (hiss a ha).2
        · dsimp only
          omega

/-- **C8 (amended).** As long as fewer than `2^64 - 1` store operations
have been performed (so the 64-bit handle counter has not wrapped), every
handle the table's store operation issues is non-zero and strictly greater
than every previously issued handle — in particular a removed entry's
handle value is never reassigned; and on table exhaustion `store_handle`
stores nothing and returns 0. -/
theorem store_handle_monotone :
    (∀ ops : List TOp, storeCount ops + 1 < U64 →
      (∀ r ∈ (tableRun ops).issued, r ≠ 0) ∧
      List.Pairwise (· < ·) (tableRun ops).issued) ∧
    (∀ (tbl : List HandleEntry) (next p sz : Nat),
      (∀ e ∈ tbl, e.in_use = true) →
      store_handle tbl next p sz = (tbl, next, 0)) := by
  constructor
  · intro ops hbound
    have hinit : 0 < initTState.next ∧
        (∀ r ∈ initTState.issued, r ≠ 0 ∧ r < initTState.next) ∧
        List.Pairwise (· < ·) initTState.issued := by
      refine ⟨Nat.one_pos, ?_, List.Pairwise.nil⟩
      intro r hr
      simp [initTState] at hr
    have h := tableRun_inv ops initTState hinit (by
      show initTState.next + storeCount ops < U64
      simp only [initTState]
      omega)
    exact ⟨fun r hr => (h.2.1 r hr).1, h.2.2⟩
  · exact store_handle_exhausted

/-- Witness for C8: two stores issue the strictly increasing non-zero
handles `[1, 2]`, and a store on a fully occupied one-slot table returns 0
leaving the table unchanged. -/
theorem store_handle_monotone_witness :
    List.Pairwise (· < ·) (tableRun [TOp.store 5 3, TOp.store 6 2]).issued ∧
    store_handle [⟨9, some 4, 2, true⟩] 7 0 1 = ([⟨9, some 4, 2, true⟩], 7, 0) :=
  ⟨(store_handle_monotone.1 [TOp.store 5 3, TOp.store 6 2] (by decide)).2,
    store_handle_monotone.2 [⟨9, some 4, 2, true⟩] 7 0 1 (by decide)⟩

theorem spin_spec (k : Nat) :
    (spin k).next = (1 + k) % U64 ∧
    (∀ e ∈ (spin k).entries, e.in_use = false) ∧
    (spin k).entries.length = 1024 := by
  induction k with
  | zero =>
    refine ⟨?_, ?_, ?_⟩
    · show (1 : Nat) = (1 + 0) % U64
      rw [U64_eq]
    · intro e he
      have he' : e ∈ initHandles := he
      rw [initHandles] at he'
      rw [List.eq_of_mem_replicate he']
    · show initHandles.length = 1024
      rw [initHandles, List.length_replicate]
  | succ n ih =>
    obtain ⟨hnext, hfree, hlen⟩ := ih
    cases hent : (spin n).entries with
    | nil => rw [hent] at hlen; simp at hlen
    | cons e rest =>
      have hin : e.in_use = false := hfree e (by rw [hent]; exact List.mem_cons_self _ _)
      have hsh : store_handle (spin n).entries (spin n).next 0 1 =
          (⟨(spin n).next, some 0, 1, true⟩ :: rest, ((spin n).next + 1) % U64,
            (spin n).next) := by
        rw [hent]
        simp [store_handle, hin]
      have hrm : remove_handle (⟨(spin n).next, some 0, 1, true⟩ :: rest)
            (spin n).next =
          (⟨(spin n).next, none, 1, false⟩ :: rest, true) := by
        simp [remove_handle]
      have hspin : spin (n + 1) =
          { entries := ⟨(spin n).next, none, 1, false⟩ :: rest,
            next := ((spin n).next + 1) % U64,
            issued := (spin n).issued ++ [(spin n).next] } := by
        simp only [spin]
        rw [hsh]
        dsimp only
        rw [hrm]
      rw [hspin]
      refine ⟨?_, ?_, ?_⟩
      · show ((spin n).next + 1) % U64 = (1 + (n + 1)) % U64
        rw [hnext, U64_eq]
        omega
      · intro x hx
        rcases List.mem_cons.mp hx with rfl | hx
        · rfl
        · exact hfree x (by rw [hent]; exact List.mem_cons_of_mem _ hx)
      · have hrl : rest.length = 1023 := by
          rw [hent] at hlen
          simpa using hlen
        show (⟨(spin n).next, none, 1, false⟩ :: rest).length = 1024
        rw [List.length_cons, hrl]

/-- Counterexample to C8 as stated: after `2^64 - 1` store/remove round
trips the 64-bit handle counter has wrapped to 0.  The next store is *not*
an exhaustion case — it claims slot 0 (the head of the returned table is an
in-use entry) — yet it returns handle 0, violating both "every handle
returned by store is non-zero" and "strictly greater than every previously
issued handle", and showing 0 can be returned without table exhaustion. -/
theorem store_handle_wrap_cex :
    (store_handle (spin (2 ^ 64 - 1)).entries (spin (2 ^ 64 - 1)).next 0 1).2.2
        = 0 ∧
    (store_handle (spin (2 ^ 64 - 1)).entries (spin (2 ^ 64 - 1)).next 0 1).1.head?
        = some ⟨0, some 0, 1, true⟩ := by
  obtain ⟨hnext, hfree, hlen⟩ := spin_spec (2 ^ 64 - 1)
  have hnext0 : (spin (2 ^ 64 - 1)).next = 0 := by
    rw [hnext, U64_eq]
    norm_num
  cases hent : (spin (2 ^ 64 - 1)).entries with
  | nil => rw [hent] at hlen; simp at hlen
  | cons e rest =>
    have hin : e.in_use = false :=
      hfree e (by rw [hent]; exact List.mem_cons_self _ _)
    rw [hnext0]
    constructor
    · simp [store_handle, hin]
    · simp [store_handle, hin]

/-- Witness for C9: from the initial state, `alloc 5`, in-place shrink to 2,
then free leaves `current_usage = 3`; and the in-place resize leaves the
statistics of that intermediate state unchanged. -/
theorem inplace_resize_stats_drift_witness :
    (ether_realloc (ether_alloc initAlloc 5 true).1 (some 0) 2 true).1.stats =
      (ether_alloc initAlloc 5 true).1.stats ∧
    (runFrom initAlloc [.alloc 5 true, .realloc (some 0) 2 true,
        .free (some 0)]).stats.current_usage = 0 + (5 - 2) :=
  ⟨inplace_resize_stats_drift.1 (ether_alloc initAlloc 5 true).1 0
      ⟨⟨BLOCK_MAGIC, FLAG_ALLOCATED, 5, 5⟩, List.replicate 5 0, 0⟩ 2 true
      (by decide) (by decide) (by decide) (by decide),
    inplace_resize_stats_drift.2 initAlloc 5 2 (by decide) (by decide) (by decide)⟩

end Ether
